import Mathlib

/-!
Verification of the Traeky encrypted multi-profile local database
(profile vault, portable DB file codec, merge algorithm, legacy migration)
against its natural-language specification.

The definitions below are shallow embeddings of the TypeScript sources:
  - src/storage/traekyDb.ts, src/unnamed/part_005 (JSON DB parsing)
  - src/storage/sqliteCodec.ts (relational file codec)
  - src/unnamed/part_003 / part_004 (dbSync: mergeImportedDb)
  - src/auth/profileSecurity.ts, src/auth/profileStore.ts
  - src/storage/legacyLocalStorageMigration.ts
JavaScript runtime values are modelled as follows: strings are `String`,
JS numbers that the code treats as integers are `Nat`/`Int`, JSON values
are the inductive `Json`, records with optional values are association
lists, and platform primitives (SHA-256, AES-GCM, Date.parse) are either
explicit function parameters or order-faithful models, as documented at
each definition.
-/

namespace Traeky

/-! ## Core data model (traekyDb.ts, profileTypes.ts, cryptoService.ts) -/

/-- EncryptedPayload from cryptoService.ts / part_002: versioned envelope of
an AES-GCM encryption.  `scope` distinguishes PIN-derived from legacy
app-key encryption (absent on older payloads); it is kept as an optional
string exactly as in the serialized form. -/
structure EncryptedPayload where
  version : Nat
  algorithm : String
  salt : String
  iv : String
  ciphertext : String
  scope : Option String
deriving DecidableEq, Repr

/-- ProfileSummary from profileTypes.ts. -/
structure ProfileSummary where
  id : String
  name : String
  createdAt : String
  updatedAt : String
deriving DecidableEq, Repr

/-- ProfilesIndex from profileTypes.ts. -/
structure ProfilesIndex where
  currentProfileId : Option String
  profiles : List ProfileSummary
deriving DecidableEq, Repr

/-- TraekyUiSettings.  `lang` and `mode` are kept as strings; the TS types
restrict them to "en"/"de" and "local-only" but runtime values come from
unvalidated casts, so the string model is the faithful one. -/
structure TraekyUiSettings where
  lang : String
  mode : String
deriving DecidableEq, Repr

/-- TraekyDbMeta. -/
structure TraekyDbMeta where
  revision : Int
deriving DecidableEq, Repr

/-- The per-profile payload record `Record<ProfileId, EncryptedPayload |
undefined>` is modelled as an association list whose values are optional:
a key mapped to `none` models an explicit `undefined` entry (JS
distinguishes it from an absent key, but every read in the sources goes
through truthiness, which identifies the two). -/
abbrev PData := List (String × Option EncryptedPayload)

/-- Reading `record[key]`: the first entry for the key, flattened. -/
def pdGet (d : PData) (k : String) : Option EncryptedPayload :=
  match d.find? (fun e => e.1 = k) with
  | some e => e.2
  | none => none

/-- Writing `record[key] = v`: replaces an existing entry in place
(JS objects keep the original key order on assignment) or appends. -/
def pdSet : PData → String → Option EncryptedPayload → PData
  | [], k, v => [(k, v)]
  | e :: rest, k, v => if e.1 = k then (k, v) :: rest else e :: pdSet rest k v

/-- TraekyDbV1 from traekyDb.ts. -/
structure TraekyDb where
  version : Nat
  createdAt : String
  updatedAt : String
  index : ProfilesIndex
  profileData : PData
  ui : TraekyUiSettings
  meta : TraekyDbMeta
deriving DecidableEq, Repr

/-- createEmptyDb from traekyDb.ts / part_005. -/
def createEmptyDb (nowIso : String) (lang : String) : TraekyDb :=
  { version := 1
    createdAt := nowIso
    updatedAt := nowIso
    index := { currentProfileId := none, profiles := [] }
    profileData := []
    ui := { lang := lang, mode := "local-only" }
    meta := { revision := 1 } }

/-! ## String comparison and the Date.parse model -/

/-- Character comparison by code point (equals UTF-8 byte order, the
collation SQLite uses for TEXT and the effective order of
String.prototype.localeCompare in the default locale for these strings). -/
def chCompare (a b : Char) : Ordering := compare a.toNat b.toNat

/-- Lexicographic comparison of character lists. -/
def chListCompare : List Char → List Char → Ordering
  | [], [] => .eq
  | [], _ :: _ => .lt
  | _ :: _, [] => .gt
  | a :: as, b :: bs =>
    match chCompare a b with
    | .eq => chListCompare as bs
    | o => o

/-- Lexicographic string comparison (model of localeCompare and of the
SQLite BINARY collation). -/
def strCompare (a b : String) : Ordering := chListCompare a.data b.data

def digitVal? (c : Char) : Option Nat :=
  if 48 ≤ c.toNat ∧ c.toNat ≤ 57 then some (c.toNat - 48) else none

def digitsVal? (cs : List Char) : Option Nat :=
  cs.foldl (fun acc c => do pure ((← acc) * 10 + (← digitVal? c))) (some 0)

/-- Model of the JS `Date.parse` restricted to the 24-character canonical
`toISOString` format "YYYY-MM-DDTHH:MM:SS.mmmZ" (the only format the app
itself produces).  On that format the returned value is order-isomorphic
to the epoch milliseconds `Date.parse` returns (the digit string read as
one number); on anything else it returns `none`, modelling NaN. -/
def jsDateParse (s : String) : Option Nat :=
  match s.data with
  | [y1, y2, y3, y4, s1, mo1, mo2, s2, d1, d2, t, h1, h2, c1, mi1, mi2, c2,
     se1, se2, dot, ms1, ms2, ms3, z] =>
    if s1 = '-' ∧ s2 = '-' ∧ t = 'T' ∧ c1 = ':' ∧ c2 = ':' ∧ dot = '.' ∧ z = 'Z' then
      digitsVal? [y1, y2, y3, y4, mo1, mo2, d1, d2, h1, h2, mi1, mi2, se1, se2, ms1, ms2, ms3]
    else none
  | _ => none

/-- compareIso from part_003 / part_004 (identical in both): numeric
comparison of `Date.parse` results when both parse, else localeCompare. -/
def compareIso (a b : String) : Ordering :=
  match jsDateParse a, jsDateParse b with
  | some ta, some tb => compare ta tb
  | _, _ => strCompare a b

/-! ## mergeImportedDb (part_003 lines 288-362; part_004 lines 509-577 is
textually the same algorithm)

The source loops over the set of all profile ids (a JS Set: local index
ids in order, then imported-only ids, first occurrence kept), and for each
id independently decides which profile/payload to keep and whether it is a
tie conflict.  The loop is embedded as `filterMap`/`countP` over that id
list plus a fold applying the payload assignments; each id occurs at most
once so the decomposition computes exactly what the loop does. -/

/-- JS `Set` insertion-order deduplication (keep first occurrence). -/
def dedupFirst : List String → List String
  | [] => []
  | x :: xs => x :: (dedupFirst xs).filter (fun y => y ≠ x)

/-- `local.index.profiles.find((p) => p.id === id)`. -/
def findProfile (db : TraekyDb) (id : String) : Option ProfileSummary :=
  db.index.profiles.find? (fun p => p.id = id)

def profileIds (db : TraekyDb) : List String := db.index.profiles.map (·.id)

def allMergeIds (loc imp : TraekyDb) : List String :=
  dedupFirst (profileIds loc ++ profileIds imp)

/-- The profile pushed for one id of the merge loop. -/
def mergeProfileAt (loc imp : TraekyDb) (id : String) : Option ProfileSummary :=
  match findProfile loc id, findProfile imp id with
  | none, some ip => some ip
  | some lp, none => some lp
  | some lp, some ip =>
    if compareIso lp.updatedAt ip.updatedAt = .lt then some ip else some lp
  | none, none => none

/-- The `mergedData[id] = imported.profileData[id]` assignment performed
for one id of the merge loop, when any. -/
def mergeAssignAt (loc imp : TraekyDb) (id : String) : Option (Option EncryptedPayload) :=
  match findProfile loc id, findProfile imp id with
  | none, some _ => some (pdGet imp.profileData id)
  | some lp, some ip =>
    if compareIso lp.updatedAt ip.updatedAt = .lt then some (pdGet imp.profileData id)
    else none
  | _, _ => none

/-- The tie-conflict test of the merge loop for one id: both sides
present, equal updatedAt, and both ciphertexts truthy (non-empty) and
different (`localCipher && importedCipher && localCipher !== importedCipher`). -/
def mergeConflictAt (loc imp : TraekyDb) (id : String) : Bool :=
  match findProfile loc id, findProfile imp id with
  | some lp, some ip =>
    if compareIso lp.updatedAt ip.updatedAt = .eq then
      let lc := (pdGet loc.profileData id).map (·.ciphertext) |>.getD ""
      let ic := (pdGet imp.profileData id).map (·.ciphertext) |>.getD ""
      lc ≠ "" ∧ ic ≠ "" ∧ lc ≠ ic
    else false
  | _, _ => false

def applyAssigns (d : PData) : List (String × Option EncryptedPayload) → PData
  | [] => d
  | (k, v) :: rest => applyAssigns (pdSet d k v) rest

def mergedProfilesList (loc imp : TraekyDb) : List ProfileSummary :=
  (allMergeIds loc imp).filterMap (mergeProfileAt loc imp)

def mergedAssignList (loc imp : TraekyDb) : List (String × Option EncryptedPayload) :=
  (allMergeIds loc imp).filterMap
    (fun id => (mergeAssignAt loc imp id).map (fun v => (id, v)))

def mergeConflictCount (loc imp : TraekyDb) : Nat :=
  (allMergeIds loc imp).countP (mergeConflictAt loc imp)

def mergedData (loc imp : TraekyDb) : PData :=
  applyAssigns loc.profileData (mergedAssignList loc imp)

/-- `if (local.index.currentProfileId && !mergedData[local.index.currentProfileId])`:
the current pointer is kept unless it is truthy (non-empty) and has no
merged payload, in which case it falls back to the first merged profile
or null. -/
def mergedCurrent (loc imp : TraekyDb) : Option String :=
  match loc.index.currentProfileId with
  | some c =>
    if c ≠ "" ∧ pdGet (mergedData loc imp) c = none then
      match mergedProfilesList loc imp with
      | [] => none
      | p :: _ => some p.id
    else some c
  | none => none

/-- mergeImportedDb on a loaded local database (the `db === null` branch of
the source simply adopts the imported database and is not modelled; every
claim is about the loaded case).  Returns the merged database together
with the `conflicts` counter the merge sets.  The trailing markDbDirty()
stamps `updatedAt := now` and bumps the revision. -/
def mergeImportedDb (now : String) (loc imp : TraekyDb) : TraekyDb × Nat :=
  ({ version := loc.version
     createdAt := loc.createdAt
     updatedAt := now
     index := { currentProfileId := mergedCurrent loc imp, profiles := mergedProfilesList loc imp }
     profileData := mergedData loc imp
     ui := loc.ui
     meta := { revision := max 1 (loc.meta.revision + 1) } },
   mergeConflictCount loc imp)

/-! ## General list lemmas used by the merge proofs -/

theorem dedupFirst_mem {l : List String} {x : String} : x ∈ dedupFirst l ↔ x ∈ l := by
  induction l with
  | nil => simp [dedupFirst]
  | cons a t ih =>
    simp only [dedupFirst, List.mem_cons, List.mem_filter]
    constructor
    · rintro (rfl | ⟨hx, _⟩)
      · exact .inl rfl
      · exact .inr (ih.mp hx)
    · rintro (rfl | hx)
      · exact .inl rfl
      · by_cases hxa : x = a
        · exact .inl hxa
        · exact .inr ⟨ih.mpr hx, by simpa using hxa⟩

theorem dedupFirst_nodup (l : List String) : (dedupFirst l).Nodup := by
  induction l with
  | nil => simp [dedupFirst]
  | cons a t ih =>
    simp only [dedupFirst]
    refine List.Nodup.cons ?_ (List.Nodup.filter _ ih)
    intro hmem
    rcases List.mem_filter.mp hmem with ⟨_, hne⟩
    simp at hne

theorem find_key_of_nodup {α : Type} (f : α → String) {l : List α}
    (h : (l.map f).Nodup) {p : α} (hp : p ∈ l) :
    l.find? (fun q => f q = f p) = some p := by
  induction l with
  | nil => cases hp
  | cons a t ih =>
    have h' : (f a :: t.map f).Nodup := by simpa using h
    rcases List.nodup_cons.mp h' with ⟨ha, ht⟩
    rcases List.mem_cons.mp hp with rfl | hpt
    · simp [List.find?]
    · have hne : f a ≠ f p := by
        intro he
        exact ha (he ▸ List.mem_map_of_mem f hpt)
      have hd : (fun q => decide (f q = f p)) a = false := by
        simpa using hne
      simp only [List.find?, hd]
      exact ih ht hpt

theorem map_filterMap_of_total {α β : Type} (f : α → Option β) (g : β → α) (l : List α)
    (h : ∀ x ∈ l, ∃ y, f x = some y ∧ g y = x) : (l.filterMap f).map g = l := by
  induction l with
  | nil => simp
  | cons a t ih =>
    rcases h a (List.mem_cons_self a t) with ⟨y, hy, hgy⟩
    simp only [List.filterMap_cons, hy, List.map_cons, hgy]
    exact congrArg (a :: ·) (ih fun x hx => h x (List.mem_cons_of_mem a hx))

/-! ## Properties of the merge building blocks -/

theorem findProfile_id {db : TraekyDb} {id : String} {p : ProfileSummary}
    (h : findProfile db id = some p) : p.id = id := by
  have := List.find?_some h
  simpa using this

theorem findProfile_mem {db : TraekyDb} {id : String} {p : ProfileSummary}
    (h : findProfile db id = some p) : p ∈ db.index.profiles :=
  List.mem_of_find?_eq_some h

theorem findProfile_mem_ids {db : TraekyDb} {id : String} {p : ProfileSummary}
    (h : findProfile db id = some p) : id ∈ profileIds db := by
  have hm : p ∈ db.index.profiles := findProfile_mem h
  have := findProfile_id h
  exact this ▸ List.mem_map_of_mem (·.id) hm

theorem findProfile_eq_none {db : TraekyDb} {id : String}
    (h : id ∉ profileIds db) : findProfile db id = none := by
  apply List.find?_eq_none.mpr
  intro p hp
  simp only [decide_eq_true_eq]
  intro hpe
  exact h (hpe ▸ List.mem_map_of_mem (·.id) hp)

theorem findProfile_of_nodup {db : TraekyDb} {p : ProfileSummary}
    (h : (profileIds db).Nodup) (hp : p ∈ db.index.profiles) :
    findProfile db p.id = some p := by
  have h' : (db.index.profiles.map (fun q => q.id)).Nodup := h
  exact find_key_of_nodup (fun q => q.id) h' hp

theorem mem_allMergeIds {loc imp : TraekyDb} {id : String} :
    id ∈ allMergeIds loc imp ↔ id ∈ profileIds loc ∨ id ∈ profileIds imp := by
  simp [allMergeIds, dedupFirst_mem]

theorem allMergeIds_nodup (loc imp : TraekyDb) : (allMergeIds loc imp).Nodup :=
  dedupFirst_nodup _

theorem findProfile_isSome_of_mem {db : TraekyDb} {id : String}
    (h : id ∈ profileIds db) : ∃ p, findProfile db id = some p ∧ p.id = id := by
  cases hfind : findProfile db id with
  | none =>
    rcases List.mem_map.mp h with ⟨p, hp, rfl⟩
    have := List.find?_eq_none.mp hfind p hp
    simp at this
  | some p => exact ⟨p, rfl, findProfile_id hfind⟩

theorem mergeProfileAt_both {loc imp : TraekyDb} {id : String} {lp ip : ProfileSummary}
    (hL : findProfile loc id = some lp) (hI : findProfile imp id = some ip) :
    mergeProfileAt loc imp id =
      (if compareIso lp.updatedAt ip.updatedAt = .lt then some ip else some lp) := by
  unfold mergeProfileAt
  rw [hL, hI]

theorem mergeProfileAt_onlyLoc {loc imp : TraekyDb} {id : String} {lp : ProfileSummary}
    (hL : findProfile loc id = some lp) (hI : findProfile imp id = none) :
    mergeProfileAt loc imp id = some lp := by
  unfold mergeProfileAt
  rw [hL, hI]

theorem mergeProfileAt_onlyImp {loc imp : TraekyDb} {id : String} {ip : ProfileSummary}
    (hL : findProfile loc id = none) (hI : findProfile imp id = some ip) :
    mergeProfileAt loc imp id = some ip := by
  unfold mergeProfileAt
  rw [hL, hI]

theorem mergeAssignAt_both {loc imp : TraekyDb} {id : String} {lp ip : ProfileSummary}
    (hL : findProfile loc id = some lp) (hI : findProfile imp id = some ip) :
    mergeAssignAt loc imp id =
      (if compareIso lp.updatedAt ip.updatedAt = .lt then some (pdGet imp.profileData id)
       else none) := by
  unfold mergeAssignAt
  rw [hL, hI]

theorem mergeAssignAt_onlyImp {loc imp : TraekyDb} {id : String} {ip : ProfileSummary}
    (hL : findProfile loc id = none) (hI : findProfile imp id = some ip) :
    mergeAssignAt loc imp id = some (pdGet imp.profileData id) := by
  unfold mergeAssignAt
  rw [hL, hI]

theorem mergeConflictAt_both {loc imp : TraekyDb} {id : String} {lp ip : ProfileSummary}
    (hL : findProfile loc id = some lp) (hI : findProfile imp id = some ip) :
    mergeConflictAt loc imp id =
      (if compareIso lp.updatedAt ip.updatedAt = .eq then
        (let lc := (pdGet loc.profileData id).map (·.ciphertext) |>.getD ""
         let ic := (pdGet imp.profileData id).map (·.ciphertext) |>.getD ""
         decide (lc ≠ "" ∧ ic ≠ "" ∧ lc ≠ ic))
       else false) := by
  unfold mergeConflictAt
  rw [hL, hI]

theorem mergeProfileAt_id {loc imp : TraekyDb} {id : String} {p : ProfileSummary}
    (h : mergeProfileAt loc imp id = some p) : p.id = id := by
  cases hL : findProfile loc id with
  | none =>
    cases hI : findProfile imp id with
    | none => unfold mergeProfileAt at h; rw [hL, hI] at h; cases h
    | some ip =>
      rw [mergeProfileAt_onlyImp hL hI] at h
      cases h; exact findProfile_id hI
  | some lp =>
    cases hI : findProfile imp id with
    | none =>
      rw [mergeProfileAt_onlyLoc hL hI] at h
      cases h; exact findProfile_id hL
    | some ip =>
      rw [mergeProfileAt_both hL hI] at h
      by_cases hcmp : compareIso lp.updatedAt ip.updatedAt = .lt
      · rw [if_pos hcmp] at h; cases h; exact findProfile_id hI
      · rw [if_neg hcmp] at h; cases h; exact findProfile_id hL

theorem mergeProfileAt_isSome {loc imp : TraekyDb} {id : String}
    (h : id ∈ allMergeIds loc imp) : ∃ p, mergeProfileAt loc imp id = some p := by
  rcases mem_allMergeIds.mp h with hmem | hmem
  · rcases findProfile_isSome_of_mem hmem with ⟨lp, hlp, _⟩
    cases hI : findProfile imp id with
    | none => exact ⟨lp, mergeProfileAt_onlyLoc hlp hI⟩
    | some ip =>
      rw [mergeProfileAt_both hlp hI]
      by_cases hcmp : compareIso lp.updatedAt ip.updatedAt = .lt
      · exact ⟨ip, by rw [if_pos hcmp]⟩
      · exact ⟨lp, by rw [if_neg hcmp]⟩
  · rcases findProfile_isSome_of_mem hmem with ⟨ip, hip, _⟩
    cases hL : findProfile loc id with
    | none => exact ⟨ip, mergeProfileAt_onlyImp hL hip⟩
    | some lp =>
      rw [mergeProfileAt_both hL hip]
      by_cases hcmp : compareIso lp.updatedAt ip.updatedAt = .lt
      · exact ⟨ip, by rw [if_pos hcmp]⟩
      · exact ⟨lp, by rw [if_neg hcmp]⟩

theorem mergedProfilesList_ids (loc imp : TraekyDb) :
    (mergedProfilesList loc imp).map (·.id) = allMergeIds loc imp := by
  apply map_filterMap_of_total
  intro id hid
  rcases mergeProfileAt_isSome hid with ⟨p, hp⟩
  exact ⟨p, hp, mergeProfileAt_id hp⟩

theorem mergedProfilesList_nodup_ids (loc imp : TraekyDb) :
    ((mergedProfilesList loc imp).map (·.id)).Nodup := by
  rw [mergedProfilesList_ids]; exact allMergeIds_nodup loc imp

theorem mem_merged_of_mergeProfileAt {loc imp : TraekyDb} {id : String} {p : ProfileSummary}
    (hid : id ∈ allMergeIds loc imp) (hp : mergeProfileAt loc imp id = some p) :
    p ∈ mergedProfilesList loc imp :=
  List.mem_filterMap.mpr ⟨id, hid, hp⟩

theorem find_merged_eq {loc imp : TraekyDb} {id : String} {p : ProfileSummary}
    (hid : id ∈ allMergeIds loc imp) (hp : mergeProfileAt loc imp id = some p) :
    (mergedProfilesList loc imp).find? (fun q => q.id = id) = some p := by
  have hmem : p ∈ mergedProfilesList loc imp := mem_merged_of_mergeProfileAt hid hp
  have hpid : p.id = id := mergeProfileAt_id hp
  have hnd : ((mergedProfilesList loc imp).map (fun q => q.id)).Nodup :=
    mergedProfilesList_nodup_ids loc imp
  have := find_key_of_nodup (fun q => q.id) hnd hmem
  subst hpid
  simpa using this

/-! ## The payload assignment fold -/

theorem pdGet_pdSet_same (d : PData) (k : String) (v : Option EncryptedPayload) :
    pdGet (pdSet d k v) k = v := by
  induction d with
  | nil => simp [pdGet, pdSet, List.find?]
  | cons e rest ih =>
    by_cases he : e.1 = k
    · simp [pdSet, he, pdGet, List.find?]
    · simp only [pdSet, if_neg he]
      simp only [pdGet, List.find?] at ih ⊢
      have : (decide (e.1 = k)) = false := by simpa using he
      rw [this]
      exact ih

theorem pdGet_pdSet_other (d : PData) (k k' : String) (v : Option EncryptedPayload)
    (h : k' ≠ k) : pdGet (pdSet d k v) k' = pdGet d k' := by
  induction d with
  | nil =>
    simp only [pdSet, pdGet, List.find?]
    have : (decide (k = k')) = false := by simpa using (Ne.symm h)
    rw [this]
  | cons e rest ih =>
    by_cases he : e.1 = k
    · simp only [pdSet, if_pos he, pdGet, List.find?]
      have h1 : (decide (k = k')) = false := by simpa using (Ne.symm h)
      have h2 : (decide (e.1 = k')) = false := by
        simp only [decide_eq_false_iff_not]
        rw [he]; exact Ne.symm h
      rw [h1, h2]
    · simp only [pdSet, if_neg he, pdGet, List.find?]
      cases hd : decide (e.1 = k') with
      | true => rfl
      | false => exact ih

theorem pdGet_applyAssigns (d : PData) (l : List (String × Option EncryptedPayload))
    (hk : (l.map (·.1)).Nodup) (k : String) :
    pdGet (applyAssigns d l) k =
      (match l.find? (fun e => e.1 = k) with
       | some e => e.2
       | none => pdGet d k) := by
  induction l generalizing d with
  | nil => simp [applyAssigns, List.find?]
  | cons e rest ih =>
    have hk' : (e.1 :: rest.map (fun x => x.1)).Nodup := hk
    have hnd := List.nodup_cons.mp hk'
    simp only [applyAssigns]
    rw [ih _ hnd.2]
    by_cases hek : e.1 = k
    · have hrest : rest.find? (fun x => x.1 = k) = none := by
        apply List.find?_eq_none.mpr
        intro x hx
        simp only [decide_eq_true_eq]
        intro hxk
        exact hnd.1 (by
          rw [← hek] at hxk
          exact hxk ▸ List.mem_map_of_mem (·.1) hx)
      have hhead : (fun x : String × Option EncryptedPayload => decide (x.1 = k)) e = true := by
        simpa using hek
      simp only [List.find?, hhead, hrest]
      rw [← hek, pdGet_pdSet_same]
    · have hhead : (fun x : String × Option EncryptedPayload => decide (x.1 = k)) e = false := by
        simpa using hek
      simp only [List.find?, hhead]
      cases hfind : rest.find? (fun x => x.1 = k) with
      | some x => rfl
      | none => rw [pdGet_pdSet_other _ _ _ _ (fun hke => hek hke.symm)]

theorem assignList_keys_nodup (loc imp : TraekyDb) :
    ((mergedAssignList loc imp).map (·.1)).Nodup := by
  have hsub : List.Sublist ((mergedAssignList loc imp).map (·.1)) (allMergeIds loc imp) := by
    unfold mergedAssignList
    generalize allMergeIds loc imp = l
    induction l with
    | nil => simp
    | cons a t ih =>
      simp only [List.filterMap_cons]
      cases mergeAssignAt loc imp a with
      | none => exact ih.cons a
      | some v => simpa using ih.cons₂ a
  exact (allMergeIds_nodup loc imp).sublist hsub

theorem assignList_find {loc imp : TraekyDb} {id : String}
    (hid : id ∈ allMergeIds loc imp) :
    (mergedAssignList loc imp).find? (fun e => e.1 = id) =
      (mergeAssignAt loc imp id).map (fun v => (id, v)) := by
  unfold mergedAssignList
  have hnd := allMergeIds_nodup loc imp
  revert hid hnd
  generalize allMergeIds loc imp = l
  intro hid hnd
  induction l with
  | nil => cases hid
  | cons a t ih =>
    have hnd' := List.nodup_cons.mp hnd
    rcases List.mem_cons.mp hid with rfl | hmem
    · simp only [List.filterMap_cons]
      cases hA : mergeAssignAt loc imp id with
      | some v => simp [hA, List.find?]
      | none =>
        simp only [hA, Option.map_none']
        apply List.find?_eq_none.mpr
        intro e he
        simp only [decide_eq_true_eq]
        intro hek
        rcases List.mem_filterMap.mp he with ⟨i, hit, hie⟩
        cases hAi : mergeAssignAt loc imp i with
        | none => rw [hAi] at hie; cases hie
        | some w =>
          rw [hAi] at hie
          cases hie
          exact hnd'.1 (hek ▸ hit)
    · simp only [List.filterMap_cons]
      cases hA : mergeAssignAt loc imp a with
      | none => exact ih hmem hnd'.2
      | some v =>
        have hne : (a = id) = False := by
          simp only [eq_iff_iff, iff_false]
          exact fun h => hnd'.1 (h ▸ hmem)
        simp only [List.find?, hne, decide_False]
        exact ih hmem hnd'.2

theorem merged_pdGet {loc imp : TraekyDb} {id : String}
    (hid : id ∈ allMergeIds loc imp) :
    pdGet (applyAssigns loc.profileData (mergedAssignList loc imp)) id =
      (match mergeAssignAt loc imp id with
       | some v => v
       | none => pdGet loc.profileData id) := by
  rw [pdGet_applyAssigns _ _ (assignList_keys_nodup loc imp), assignList_find hid]
  cases mergeAssignAt loc imp id <;> rfl

/-- The count of tie conflicts among all ids other than a given one. -/
def mergeConflictCountWithout (loc imp : TraekyDb) (id : String) : Nat :=
  ((allMergeIds loc imp).filter (fun i => i ≠ id)).countP (mergeConflictAt loc imp)

theorem countP_split_at {l : List String} {id : String} (hl : l.Nodup) (hid : id ∈ l)
    (p : String → Bool) :
    l.countP p = (l.filter (fun i => i ≠ id)).countP p + (if p id then 1 else 0) := by
  induction l with
  | nil => cases hid
  | cons a t ih =>
    have hnd := List.nodup_cons.mp hl
    rcases List.mem_cons.mp hid with rfl | hmem
    · have hfilter : t.filter (fun i => i ≠ id) = t := by
        apply List.filter_eq_self.mpr
        intro x hx
        simp only [ne_eq, decide_not, Bool.not_eq_eq_eq_not, Bool.not_true, decide_eq_false_iff_not]
        intro hxe
        exact hnd.1 (hxe ▸ hx)
      have hself : (fun i => decide (i ≠ id)) id = false := by simp
      simp only [List.countP_cons, List.filter_cons, hself, hfilter]
      cases hp : p id <;> simp [hp]
    · have hne : a ≠ id := fun h => hnd.1 (h ▸ hmem)
      have hkeep : (fun i => decide (i ≠ id)) a = true := by simpa using hne
      simp only [List.countP_cons, List.filter_cons, hkeep, if_true, List.countP_cons]
      rw [ih hnd.2 hmem]
      cases hp : p a
      · simp [hp]
      · simp only [hp, if_true]
        omega

/-! ## Claims C1, C4, C9 about mergeImportedDb -/

/-- C4: after every mergeImportedDb call on a loaded local database whose
index satisfies the ProfileIndex invariant, the merged index satisfies it
as well: a non-null currentProfileId references a profile present in the
merged profile list.  (The claim's repair clause is subsumed: the merge
never removes a profile, so a previously valid current profile id always
exists in the merged set; the code's repair, which fires on a missing
payload, is shown to keep the invariant too.) -/
theorem mergeImportedDb_index_invariant (now : String) (loc imp : TraekyDb)
    (hinv : ∀ c, loc.index.currentProfileId = some c → c ∈ profileIds loc) :
    ∀ c, (mergeImportedDb now loc imp).1.index.currentProfileId = some c →
      c ∈ profileIds (mergeImportedDb now loc imp).1 := by
  intro c hc
  have hids : profileIds (mergeImportedDb now loc imp).1 = allMergeIds loc imp :=
    mergedProfilesList_ids loc imp
  rw [hids]
  have hc' : mergedCurrent loc imp = some c := hc
  unfold mergedCurrent at hc'
  cases hcur : loc.index.currentProfileId with
  | none => rw [hcur] at hc'; cases hc'
  | some c0 =>
    rw [hcur] at hc'
    dsimp only at hc'
    by_cases hrep : c0 ≠ "" ∧ pdGet (mergedData loc imp) c0 = none
    · rw [if_pos hrep] at hc'
      cases hps : mergedProfilesList loc imp with
      | nil => rw [hps] at hc'; cases hc'
      | cons p rest =>
        rw [hps] at hc'
        cases hc'
        rw [← mergedProfilesList_ids loc imp, hps]
        exact List.mem_map_of_mem _ (List.mem_cons_self p rest)
    · rw [if_neg hrep] at hc'
      cases hc'
      exact mem_allMergeIds.mpr (.inl (hinv _ hcur))

def wInvProfile : ProfileSummary :=
  { id := "alice-1", name := "Alice", createdAt := "2024-05-01T10:00:00.000Z",
    updatedAt := "2024-05-01T10:00:00.000Z" }

def wInvPayload : EncryptedPayload :=
  { version := 1, algorithm := "AES-GCM", salt := "c2FsdA==", iv := "aXY=",
    ciphertext := "Y2lwaGVy", scope := some "pin" }

def wInvLoc : TraekyDb :=
  { version := 1, createdAt := "2024-05-01T10:00:00.000Z",
    updatedAt := "2024-05-01T10:00:00.000Z"
    index := { currentProfileId := some "alice-1", profiles := [wInvProfile] }
    profileData := [("alice-1", some wInvPayload)]
    ui := { lang := "en", mode := "local-only" }
    meta := { revision := 3 } }

def wInvImp : TraekyDb :=
  { version := 1, createdAt := "2024-05-02T10:00:00.000Z",
    updatedAt := "2024-05-02T10:00:00.000Z"
    index := { currentProfileId := none
               profiles := [{ id := "bob-2", name := "Bob",
                              createdAt := "2024-05-02T10:00:00.000Z",
                              updatedAt := "2024-05-02T10:00:00.000Z" }] }
    profileData := []
    ui := { lang := "de", mode := "local-only" }
    meta := { revision := 1 } }

theorem mergeImportedDb_index_invariant_witness :
    (∀ c, wInvLoc.index.currentProfileId = some c → c ∈ profileIds wInvLoc) ∧
    (mergeImportedDb "2024-05-03T10:00:00.000Z" wInvLoc wInvImp).1.index.currentProfileId =
      some "alice-1" ∧
    "alice-1" ∈ profileIds (mergeImportedDb "2024-05-03T10:00:00.000Z" wInvLoc wInvImp).1 := by
  have hinv : ∀ c, wInvLoc.index.currentProfileId = some c → c ∈ profileIds wInvLoc := by
    intro c hc
    cases hc
    decide
  refine ⟨hinv, by decide, ?_⟩
  exact mergeImportedDb_index_invariant "2024-05-03T10:00:00.000Z" wInvLoc wInvImp hinv
    "alice-1" (by decide)

/-- C1 (amended): for a profile id present in both databases, a strictly
newer imported updatedAt makes the imported metadata and payload replace
the local ones; an exact tie keeps the local metadata and payload, and the
conflicts counter counts this id exactly once when both ciphertexts are
non-empty and differ, and not at all otherwise (in particular not when one
side's ciphertext is empty or its payload is missing, which is where the
original claim fails). -/
theorem mergeImportedDb_common_profile (now : String) (loc imp : TraekyDb)
    (id : String) (lp ip : ProfileSummary)
    (hL : findProfile loc id = some lp) (hI : findProfile imp id = some ip) :
    (compareIso lp.updatedAt ip.updatedAt = .lt →
        findProfile (mergeImportedDb now loc imp).1 id = some ip ∧
        pdGet (mergeImportedDb now loc imp).1.profileData id = pdGet imp.profileData id)
    ∧ (compareIso lp.updatedAt ip.updatedAt = .eq →
        findProfile (mergeImportedDb now loc imp).1 id = some lp ∧
        pdGet (mergeImportedDb now loc imp).1.profileData id = pdGet loc.profileData id)
    ∧ (mergeImportedDb now loc imp).2 =
        mergeConflictCountWithout loc imp id +
          (if compareIso lp.updatedAt ip.updatedAt = .eq ∧
              ((pdGet loc.profileData id).map (·.ciphertext)).getD "" ≠ "" ∧
              ((pdGet imp.profileData id).map (·.ciphertext)).getD "" ≠ "" ∧
              ((pdGet loc.profileData id).map (·.ciphertext)).getD "" ≠
                ((pdGet imp.profileData id).map (·.ciphertext)).getD ""
           then 1 else 0) := by
  have hid : id ∈ allMergeIds loc imp := mem_allMergeIds.mpr (.inl (findProfile_mem_ids hL))
  refine ⟨?_, ?_, ?_⟩
  · intro hlt
    have hP : mergeProfileAt loc imp id = some ip := by
      rw [mergeProfileAt_both hL hI, if_pos hlt]
    have hA : mergeAssignAt loc imp id = some (pdGet imp.profileData id) := by
      rw [mergeAssignAt_both hL hI, if_pos hlt]
    refine ⟨find_merged_eq hid hP, ?_⟩
    show pdGet (mergedData loc imp) id = pdGet imp.profileData id
    unfold mergedData
    rw [merged_pdGet hid, hA]
  · intro heq
    have hnlt : ¬ compareIso lp.updatedAt ip.updatedAt = .lt := by
      rw [heq]; intro h; cases h
    have hP : mergeProfileAt loc imp id = some lp := by
      rw [mergeProfileAt_both hL hI, if_neg hnlt]
    have hA : mergeAssignAt loc imp id = none := by
      rw [mergeAssignAt_both hL hI, if_neg hnlt]
    refine ⟨find_merged_eq hid hP, ?_⟩
    show pdGet (mergedData loc imp) id = pdGet loc.profileData id
    unfold mergedData
    rw [merged_pdGet hid, hA]
  · show mergeConflictCount loc imp = _
    have hsplit := countP_split_at (allMergeIds_nodup loc imp) hid (mergeConflictAt loc imp)
    rw [mergeConflictCount, hsplit]
    have : mergeConflictCountWithout loc imp id =
        ((allMergeIds loc imp).filter (fun i => i ≠ id)).countP (mergeConflictAt loc imp) := rfl
    rw [← this]
    congr 1
    rw [mergeConflictAt_both hL hI]
    by_cases heq : compareIso lp.updatedAt ip.updatedAt = .eq
    · simp only [if_pos heq, heq, true_and]
      by_cases hc : ((pdGet loc.profileData id).map (·.ciphertext)).getD "" ≠ "" ∧
          ((pdGet imp.profileData id).map (·.ciphertext)).getD "" ≠ "" ∧
          ((pdGet loc.profileData id).map (·.ciphertext)).getD "" ≠
            ((pdGet imp.profileData id).map (·.ciphertext)).getD "" <;>
        simp [hc]
    · simp [heq]

def cexTiePayEmpty : EncryptedPayload :=
  { version := 1, algorithm := "AES-GCM", salt := "c2FsdA==", iv := "aXY=",
    ciphertext := "", scope := none }

def cexTiePayFull : EncryptedPayload :=
  { version := 1, algorithm := "AES-GCM", salt := "c2FsdA==", iv := "aXY=",
    ciphertext := "emFnYQ==", scope := none }

def cexTieProfile : ProfileSummary :=
  { id := "p1", name := "P", createdAt := "2024-05-01T10:00:00.000Z",
    updatedAt := "2024-05-01T10:00:00.000Z" }

def cexTieLoc : TraekyDb :=
  { version := 1, createdAt := "2024-05-01T10:00:00.000Z",
    updatedAt := "2024-05-01T10:00:00.000Z"
    index := { currentProfileId := some "p1", profiles := [cexTieProfile] }
    profileData := [("p1", some cexTiePayEmpty)]
    ui := { lang := "en", mode := "local-only" }
    meta := { revision := 1 } }

def cexTieImp : TraekyDb :=
  { cexTieLoc with profileData := [("p1", some cexTiePayFull)] }

/-- The original C1 is false at this input: the profile id "p1" is present
in both databases with exactly equal updatedAt, both sides carry an
encrypted payload and the two ciphertexts differ ("" vs a non-empty one),
yet the merge reports 0 conflicts, because the code additionally requires
both ciphertexts to be non-empty (truthy). -/
theorem mergeImportedDb_tie_conflict_cex :
    findProfile cexTieLoc "p1" = some cexTieProfile ∧
    findProfile cexTieImp "p1" = some cexTieProfile ∧
    compareIso cexTieProfile.updatedAt cexTieProfile.updatedAt = .eq ∧
    pdGet cexTieLoc.profileData "p1" = some cexTiePayEmpty ∧
    pdGet cexTieImp.profileData "p1" = some cexTiePayFull ∧
    cexTiePayEmpty.ciphertext ≠ cexTiePayFull.ciphertext ∧
    (mergeImportedDb "2024-05-02T10:00:00.000Z" cexTieLoc cexTieImp).2 = 0 := by
  decide

def wTiePayA : EncryptedPayload :=
  { version := 1, algorithm := "AES-GCM", salt := "c2FsdA==", iv := "aXY=",
    ciphertext := "YWFh", scope := none }

def wTiePayB : EncryptedPayload :=
  { version := 1, algorithm := "AES-GCM", salt := "c2FsdA==", iv := "aXY=",
    ciphertext := "YmJi", scope := none }

def wTieLoc : TraekyDb :=
  { cexTieLoc with profileData := [("p1", some wTiePayA)] }

def wTieImp : TraekyDb :=
  { cexTieLoc with profileData := [("p1", some wTiePayB)] }

theorem mergeImportedDb_common_profile_witness :
    findProfile wTieLoc "p1" = some cexTieProfile ∧
    findProfile wTieImp "p1" = some cexTieProfile ∧
    (mergeImportedDb "2024-05-02T10:00:00.000Z" wTieLoc wTieImp).2 = 1 ∧
    pdGet (mergeImportedDb "2024-05-02T10:00:00.000Z" wTieLoc wTieImp).1.profileData "p1" =
      some wTiePayA := by
  have h := mergeImportedDb_common_profile "2024-05-02T10:00:00.000Z" wTieLoc wTieImp
    "p1" cexTieProfile cexTieProfile (by decide) (by decide)
  refine ⟨by decide, by decide, ?_, ?_⟩
  · rw [h.2.2]
    decide
  · exact (h.2.1 (by decide)).2.trans (by decide)

/-- C9: merging two databases with disjoint profile id sets yields, in
either direction, a database whose profile list contains every profile of
both inputs. -/
theorem mergeImportedDb_disjoint_union (now : String) (X Y : TraekyDb)
    (hX : (profileIds X).Nodup) (hY : (profileIds Y).Nodup)
    (hdisj : ∀ id, id ∈ profileIds X → id ∉ profileIds Y) :
    (∀ p ∈ X.index.profiles,
        p ∈ (mergeImportedDb now Y X).1.index.profiles ∧
        p ∈ (mergeImportedDb now X Y).1.index.profiles) ∧
    (∀ q ∈ Y.index.profiles,
        q ∈ (mergeImportedDb now Y X).1.index.profiles ∧
        q ∈ (mergeImportedDb now X Y).1.index.profiles) := by
  constructor
  · intro p hp
    have hmemX : p.id ∈ profileIds X := List.mem_map_of_mem (·.id) hp
    have hnotY : p.id ∉ profileIds Y := hdisj p.id hmemX
    have hfX : findProfile X p.id = some p := findProfile_of_nodup hX hp
    have hfY : findProfile Y p.id = none := findProfile_eq_none hnotY
    constructor
    · exact mem_merged_of_mergeProfileAt (mem_allMergeIds.mpr (.inr hmemX))
        (mergeProfileAt_onlyImp hfY hfX)
    · exact mem_merged_of_mergeProfileAt (mem_allMergeIds.mpr (.inl hmemX))
        (mergeProfileAt_onlyLoc hfX hfY)
  · intro q hq
    have hmemY : q.id ∈ profileIds Y := List.mem_map_of_mem (·.id) hq
    have hnotX : q.id ∉ profileIds X := fun hmemX => hdisj q.id hmemX hmemY
    have hfY : findProfile Y q.id = some q := findProfile_of_nodup hY hq
    have hfX : findProfile X q.id = none := findProfile_eq_none hnotX
    constructor
    · exact mem_merged_of_mergeProfileAt (mem_allMergeIds.mpr (.inl hmemY))
        (mergeProfileAt_onlyLoc hfY hfX)
    · exact mem_merged_of_mergeProfileAt (mem_allMergeIds.mpr (.inr hmemY))
        (mergeProfileAt_onlyImp hfX hfY)

def wDisA : ProfileSummary :=
  { id := "a1", name := "A", createdAt := "2024-05-01T10:00:00.000Z",
    updatedAt := "2024-05-01T10:00:00.000Z" }

def wDisB : ProfileSummary :=
  { id := "b1", name := "B", createdAt := "2024-05-02T10:00:00.000Z",
    updatedAt := "2024-05-02T10:00:00.000Z" }

def wDisX : TraekyDb :=
  { version := 1, createdAt := "2024-05-01T10:00:00.000Z",
    updatedAt := "2024-05-01T10:00:00.000Z"
    index := { currentProfileId := some "a1", profiles := [wDisA] }
    profileData := [("a1", some wInvPayload)]
    ui := { lang := "en", mode := "local-only" }
    meta := { revision := 1 } }

def wDisY : TraekyDb :=
  { version := 1, createdAt := "2024-05-02T10:00:00.000Z",
    updatedAt := "2024-05-02T10:00:00.000Z"
    index := { currentProfileId := some "b1", profiles := [wDisB] }
    profileData := [("b1", some wInvPayload)]
    ui := { lang := "en", mode := "local-only" }
    meta := { revision := 1 } }

theorem mergeImportedDb_disjoint_union_witness :
    (profileIds wDisX).Nodup ∧ (profileIds wDisY).Nodup ∧
    (∀ id, id ∈ profileIds wDisX → id ∉ profileIds wDisY) ∧
    (wDisA ∈ (mergeImportedDb "t" wDisY wDisX).1.index.profiles ∧
     wDisA ∈ (mergeImportedDb "t" wDisX wDisY).1.index.profiles) ∧
    (wDisB ∈ (mergeImportedDb "t" wDisY wDisX).1.index.profiles ∧
     wDisB ∈ (mergeImportedDb "t" wDisX wDisY).1.index.profiles) := by
  have hdisj : ∀ id, id ∈ profileIds wDisX → id ∉ profileIds wDisY := by
    intro id hmem
    have : id = "a1" := by
      simpa [wDisX, profileIds, wDisA] using hmem
    subst this
    decide
  have h := mergeImportedDb_disjoint_union "t" wDisX wDisY (by decide) (by decide) hdisj
  exact ⟨by decide, by decide, hdisj, h.1 wDisA (by decide), h.2 wDisB (by decide)⟩

/-! ## sqliteCodec.ts: the embedded relational file model

The sql.js engine is modelled by its logical content after the schema of
createSchema: a `meta(key,value)` table (key PRIMARY KEY, upserted), the
single `ui_settings` row, the `profiles` table (id PRIMARY KEY, TEXT NOT
NULL columns) in insertion order, and the `profile_data` table
(profile_id PRIMARY KEY).  A violated PRIMARY KEY constraint makes the
insert throw, modelled with `Except`. -/

structure ProfileRow where
  id : String
  name : String
  createdAt : String
  updatedAt : String
deriving DecidableEq, Repr

structure ProfileDataRow where
  profileId : String
  version : Int
  algorithm : String
  salt : String
  iv : String
  ciphertext : String
  scope : Option String
  updatedAt : String
deriving DecidableEq, Repr

structure SqliteFile where
  meta : List (String × String)
  uiRow : Option (String × String)
  profiles : List ProfileRow
  dataRows : List ProfileDataRow
deriving DecidableEq, Repr

/-- putMeta: INSERT ... ON CONFLICT(key) DO UPDATE (upsert keeping row
position). -/
def putMeta : List (String × String) → String → String → List (String × String)
  | [], k, v => [(k, v)]
  | e :: rest, k, v => if e.1 = k then (k, v) :: rest else e :: putMeta rest k v

/-- getMeta: SELECT value FROM meta WHERE key = ? LIMIT 1 (always TEXT in
this model, so the string type check of the source always passes). -/
def getMeta (f : SqliteFile) (k : String) : Option String :=
  (f.meta.find? (fun e => e.1 = k)).map (·.2)

def profRowOf (p : ProfileSummary) : ProfileRow :=
  { id := p.id, name := p.name, createdAt := p.createdAt, updatedAt := p.updatedAt }

/-- The profile_data row written for a profile, when its payload entry is
truthy. -/
def dataRowOf (dbObj : TraekyDb) (p : ProfileSummary) : Option ProfileDataRow :=
  (pdGet dbObj.profileData p.id).map (fun enc =>
    { profileId := p.id, version := (enc.version : Int), algorithm := enc.algorithm,
      salt := enc.salt, iv := enc.iv, ciphertext := enc.ciphertext,
      scope := enc.scope, updatedAt := p.updatedAt })

/-- The profile loop of serializeDbToSqlite: inserts each profile row and,
when present, its encrypted payload row; a duplicate primary key raises. -/
def insertAllProfiles (dbObj : TraekyDb) :
    List ProfileSummary → List ProfileRow × List ProfileDataRow →
    Except String (List ProfileRow × List ProfileDataRow)
  | [], acc => .ok acc
  | p :: rest, (pr, dr) =>
    if pr.any (fun r => r.id = p.id) then
      .error "UNIQUE constraint failed: profiles.id"
    else
      match dataRowOf dbObj p with
      | some row =>
        if dr.any (fun r => r.profileId = p.id) then
          .error "UNIQUE constraint failed: profile_data.profile_id"
        else insertAllProfiles dbObj rest (pr ++ [profRowOf p], dr ++ [row])
      | none => insertAllProfiles dbObj rest (pr ++ [profRowOf p], dr)

def digitCh (n : Nat) : Char :=
  match n with
  | 0 => '0' | 1 => '1' | 2 => '2' | 3 => '3' | 4 => '4'
  | 5 => '5' | 6 => '6' | 7 => '7' | 8 => '8' | _ => '9'

/-- Decimal rendering of a natural number, the model of the JS `String()`
conversion on the (always positive, integral) revision counter. -/
def natToDigits (n : Nat) : List Char :=
  if _h : n < 10 then [digitCh n]
  else natToDigits (n / 10) ++ [digitCh (n % 10)]
termination_by n
decreasing_by
  exact Nat.div_lt_self (by omega) (by omega)

def natToStr (n : Nat) : String := ⟨natToDigits n⟩

/-- serializeDbToSqlite.  `now` stands for the nowIso() calls; the fresh
database starts with empty tables, so the two DELETE statements are
no-ops and the five putMeta upserts build the meta table from scratch. -/
def serializeDbToSqlite (now : String) (dbObj : TraekyDb) : Except String SqliteFile := do
  let createdAt := if dbObj.createdAt = "" then now else dbObj.createdAt
  let updatedAt := if dbObj.updatedAt = "" then createdAt else dbObj.updatedAt
  let revision : Int := max 1 dbObj.meta.revision
  let m := putMeta [] "version" "1"
  let m := putMeta m "createdAt" createdAt
  let m := putMeta m "updatedAt" updatedAt
  let m := putMeta m "revision" (natToStr revision.toNat)
  let m := putMeta m "currentProfileId" (dbObj.index.currentProfileId.getD "")
  let (profRows, dataRows) ← insertAllProfiles dbObj dbObj.index.profiles ([], [])
  pure { meta := m, uiRow := some (dbObj.ui.lang, dbObj.ui.mode),
         profiles := profRows, dataRows := dataRows }

/-- Non-strict comparison used to model `ORDER BY created_at ASC` with the
BINARY (byte-wise) collation. -/
def strLeB (a b : String) : Bool :=
  match strCompare a b with
  | .gt => false
  | _ => true

def sortInsert (x : ProfileRow) : List ProfileRow → List ProfileRow
  | [] => [x]
  | y :: ys =>
    if strLeB x.createdAt y.createdAt then x :: y :: ys else y :: sortInsert x ys

/-- Stable sort by created_at, the model of the ORDER BY of
readProfilesIndex (SQLite sorts TEXT byte-wise; ties keep a deterministic
order here, matching the engine's stable behaviour on a simple scan). -/
def sortByCreatedAt : List ProfileRow → List ProfileRow
  | [] => []
  | x :: xs => sortInsert x (sortByCreatedAt xs)

/-- readProfilesIndex: profiles ordered by created_at, rows with an empty
id or name dropped; the currentProfileId meta value must be truthy and
reference a read profile.  (The asString fallbacks of the source only fire
on non-string column values, which the TEXT NOT NULL schema rules out in
this model.) -/
def readProfilesIndex (f : SqliteFile) : ProfilesIndex :=
  let profiles := (sortByCreatedAt f.profiles).filterMap (fun r =>
    if r.id = "" ∨ r.name = "" then none
    else some { id := r.id, name := r.name, createdAt := r.createdAt,
                updatedAt := r.updatedAt })
  let currentProfileId :=
    match getMeta f "currentProfileId" with
    | some c => if c ≠ "" ∧ profiles.any (fun p => p.id = c) then some c else none
    | none => none
  { currentProfileId := currentProfileId, profiles := profiles }

/-- A profile_data row is skipped when any of id/salt/iv/ciphertext is
falsy (empty). -/
def dataRowSkip (r : ProfileDataRow) : Bool :=
  r.profileId = "" ∨ r.salt = "" ∨ r.iv = "" ∨ r.ciphertext = ""

/-- The payload reconstructed from a row.  The source computes
`isFiniteInt(verRaw) ? verRaw : 1` and then collapses it with
`version === 1 ? 1 : 1`, and likewise `algorithm === "AES-GCM" ? "AES-GCM"
: "AES-GCM"`; both collapses are kept verbatim. -/
def payloadOfRow (r : ProfileDataRow) : EncryptedPayload :=
  { version := if r.version = 1 then 1 else 1
    algorithm := if r.algorithm = "AES-GCM" then "AES-GCM" else "AES-GCM"
    salt := r.salt
    iv := r.iv
    ciphertext := r.ciphertext
    scope :=
      if r.scope = some "legacy-appkey" then some "legacy-appkey"
      else if r.scope = some "pin" then some "pin" else none }

def readProfileDataRows : List ProfileDataRow → PData → PData
  | [], out => out
  | r :: rest, out =>
    if dataRowSkip r then readProfileDataRows rest out
    else readProfileDataRows rest (pdSet out r.profileId (some (payloadOfRow r)))

def readProfileData (f : SqliteFile) : PData :=
  readProfileDataRows f.dataRows []

def readUi (fallbackLang : String) (f : SqliteFile) : TraekyUiSettings :=
  match f.uiRow with
  | none => { lang := fallbackLang, mode := "local-only" }
  | some (l, m) =>
    { lang := if l = "de" then "de" else if l = "en" then "en" else fallbackLang
      mode := if m = "local-only" then "local-only" else "local-only" }

/-- Model of `Number()` ∘ `Math.trunc` restricted to the canonical
non-negative decimal strings the serializer emits; every other string maps
to `none` (NaN or a non-canonical numeral), which the parser replaces by
the default 1. -/
def strToNonnegInt? (s : String) : Option Int :=
  (digitsVal? s.data).map Int.ofNat

/-- parseDbFromSqlite on a structurally valid relational file (an invalid
binary makes the sql.js constructor throw before this logic runs and is
outside the model). -/
def parseDbFromSqlite (now fallbackLang : String) (f : SqliteFile) : TraekyDb :=
  let createdAt := (getMeta f "createdAt").getD now
  let updatedAt := (getMeta f "updatedAt").getD createdAt
  let revision : Int :=
    match getMeta f "revision" with
    | none => 1
    | some s =>
      if s = "" then 1
      else
        match strToNonnegInt? s with
        | some n => max 1 n
        | none => 1
  { version := 1
    createdAt := createdAt
    updatedAt := updatedAt
    index := readProfilesIndex f
    profileData := readProfileData f
    ui := readUi fallbackLang f
    meta := { revision := revision } }

/-- The valid databases of the round-trip claim: the shape invariants the
application maintains and the file format captures (format version 1,
non-empty timestamps, duplicate-free non-empty profile ids, non-empty
names, a current pointer that references a profile, payload entries only
for indexed profiles, payloads with version 1, AES-GCM, non-empty
salt/iv/ciphertext and a known scope tag, a known language, the only
supported mode, and a positive revision). -/
def ValidDb (db : TraekyDb) : Prop :=
  db.version = 1 ∧ db.createdAt ≠ "" ∧ db.updatedAt ≠ "" ∧
  (profileIds db).Nodup ∧
  (∀ p ∈ db.index.profiles, p.id ≠ "" ∧ p.name ≠ "") ∧
  (∀ c ∈ db.index.currentProfileId.toList, c ≠ "" ∧ c ∈ profileIds db) ∧
  (∀ kv ∈ db.profileData, ∀ _e ∈ kv.2.toList, kv.1 ∈ profileIds db) ∧
  (∀ p ∈ db.index.profiles, ∀ e ∈ (pdGet db.profileData p.id).toList,
      e.version = 1 ∧ e.algorithm = "AES-GCM" ∧ e.salt ≠ "" ∧ e.iv ≠ "" ∧
      e.ciphertext ≠ "" ∧
      (e.scope = none ∨ e.scope = some "pin" ∨ e.scope = some "legacy-appkey")) ∧
  (db.ui.lang = "en" ∨ db.ui.lang = "de") ∧ db.ui.mode = "local-only" ∧
  1 ≤ db.meta.revision

/-! ## Decimal round trip for the revision counter -/

theorem digitsVal?_append (xs : List Char) (c : Char) :
    digitsVal? (xs ++ [c]) =
      (match digitsVal? xs, digitVal? c with
       | some a, some d => some (a * 10 + d)
       | _, _ => none) := by
  unfold digitsVal?
  rw [List.foldl_append]
  cases hx : (xs.foldl (fun acc c => do pure ((← acc) * 10 + (← digitVal? c))) (some 0)) with
  | none => simp [Option.bind]
  | some a =>
    cases hc : digitVal? c with
    | none => simp [Option.bind, hc]
    | some d => simp [Option.bind, hc]

theorem digitVal?_digitCh {m : Nat} (hm : m < 10) : digitVal? (digitCh m) = some m := by
  interval_cases m <;> rfl

theorem digitsVal?_natToDigits (n : Nat) : digitsVal? (natToDigits n) = some n := by
  induction n using Nat.strong_induction_on with
  | _ n ih =>
    by_cases h : n < 10
    · rw [natToDigits, dif_pos h]
      show digitsVal? ([] ++ [digitCh n]) = some n
      rw [digitsVal?_append, digitVal?_digitCh h]
      simp [digitsVal?]
    · rw [natToDigits, dif_neg h]
      rw [digitsVal?_append, ih (n / 10) (Nat.div_lt_self (by omega) (by omega)),
        digitVal?_digitCh (Nat.mod_lt n (by omega))]
      exact congrArg some (by omega)

theorem natToDigits_ne_nil (n : Nat) : natToDigits n ≠ [] := by
  rw [natToDigits]
  by_cases h : n < 10
  · rw [dif_pos h]; simp
  · rw [dif_neg h]; simp

theorem natToStr_ne_empty (n : Nat) : natToStr n ≠ "" := by
  intro h
  have : natToDigits n = [] := congrArg String.data h
  exact natToDigits_ne_nil n this

theorem strToNonnegInt?_natToStr (n : Nat) :
    strToNonnegInt? (natToStr n) = some (Int.ofNat n) := by
  unfold strToNonnegInt? natToStr
  rw [show (String.mk (natToDigits n)).data = natToDigits n from rfl,
    digitsVal?_natToDigits]
  rfl

/-! ## The shape of a successful serialization -/

theorem dataRowOf_profileId {db : TraekyDb} {p : ProfileSummary} {row : ProfileDataRow}
    (h : dataRowOf db p = some row) : row.profileId = p.id := by
  unfold dataRowOf at h
  cases hp : pdGet db.profileData p.id with
  | none => rw [hp] at h; cases h
  | some enc => rw [hp] at h; cases h; rfl

theorem insertAllProfiles_ok (dbObj : TraekyDb) (ps : List ProfileSummary)
    (pr : List ProfileRow) (dr : List ProfileDataRow)
    (hnodup : (ps.map (·.id)).Nodup)
    (hpr : ∀ q ∈ ps, ∀ r ∈ pr, r.id ≠ q.id)
    (hdr : ∀ q ∈ ps, ∀ r ∈ dr, r.profileId ≠ q.id) :
    insertAllProfiles dbObj ps (pr, dr) =
      .ok (pr ++ ps.map profRowOf, dr ++ ps.filterMap (dataRowOf dbObj)) := by
  induction ps generalizing pr dr with
  | nil => simp [insertAllProfiles]
  | cons p rest ih =>
    have hnodup' : (p.id :: rest.map (·.id)).Nodup := hnodup
    rcases List.nodup_cons.mp hnodup' with ⟨hph, hpt⟩
    have hprAny : pr.any (fun r => r.id = p.id) = false := by
      rw [Bool.eq_false_iff]
      intro hany
      rcases List.any_eq_true.mp hany with ⟨r, hr, hrid⟩
      exact hpr p (List.mem_cons_self p rest) r hr (by simpa using hrid)
    have hprNext : ∀ q ∈ rest, ∀ r ∈ pr ++ [profRowOf p], r.id ≠ q.id := by
      intro q hq r hr
      rcases List.mem_append.mp hr with hr | hr
      · exact hpr q (List.mem_cons_of_mem p hq) r hr
      · rcases List.mem_singleton.mp hr with rfl
        show (profRowOf p).id ≠ q.id
        intro he
        exact hph (by
          have hpq : p.id = q.id := he
          exact hpq ▸ List.mem_map_of_mem (·.id) hq)
    unfold insertAllProfiles
    rw [hprAny]
    simp only [Bool.false_eq_true, if_false]
    cases hrow : dataRowOf dbObj p with
    | some row =>
      have hdrAny : dr.any (fun r => r.profileId = p.id) = false := by
        rw [Bool.eq_false_iff]
        intro hany
        rcases List.any_eq_true.mp hany with ⟨r, hr, hrid⟩
        exact hdr p (List.mem_cons_self p rest) r hr (by simpa using hrid)
      have hdrNext : ∀ q ∈ rest, ∀ r ∈ dr ++ [row], r.profileId ≠ q.id := by
        intro q hq r hr
        rcases List.mem_append.mp hr with hr | hr
        · exact hdr q (List.mem_cons_of_mem p hq) r hr
        · rcases List.mem_singleton.mp hr with rfl
          rw [dataRowOf_profileId hrow]
          intro he
          exact hph (he ▸ List.mem_map_of_mem (·.id) hq)
      rw [hdrAny]
      simp only [Bool.false_eq_true, if_false]
      rw [ih _ _ hpt hprNext hdrNext]
      simp [List.filterMap_cons, hrow, List.append_assoc]
    | none =>
      have hdrNext : ∀ q ∈ rest, ∀ r ∈ dr, r.profileId ≠ q.id := by
        intro q hq r hr
        exact hdr q (List.mem_cons_of_mem p hq) r hr
      rw [ih _ _ hpt hprNext hdrNext]
      simp [List.filterMap_cons, hrow, List.append_assoc]

/-- The file a successful serialization produces (established by
serializeDbToSqlite_eq). -/
def serializedFile (now : String) (db : TraekyDb) : SqliteFile :=
  { meta := [("version", "1"),
             ("createdAt", if db.createdAt = "" then now else db.createdAt),
             ("updatedAt", if db.updatedAt = "" then
                (if db.createdAt = "" then now else db.createdAt)
              else db.updatedAt),
             ("revision", natToStr (max 1 db.meta.revision).toNat),
             ("currentProfileId", db.index.currentProfileId.getD "")]
    uiRow := some (db.ui.lang, db.ui.mode)
    profiles := db.index.profiles.map profRowOf
    dataRows := db.index.profiles.filterMap (dataRowOf db) }

theorem serializeDbToSqlite_eq (now : String) (db : TraekyDb)
    (hnodup : (profileIds db).Nodup) :
    serializeDbToSqlite now db = .ok (serializedFile now db) := by
  unfold serializeDbToSqlite serializedFile
  rw [insertAllProfiles_ok db db.index.profiles [] [] hnodup
    (by intro q _ r hr; cases hr) (by intro q _ r hr; cases hr)]
  simp [putMeta, Except.bind]

/-! ## Reading the file back -/

theorem sortInsert_head {x y : ProfileRow} {ys : List ProfileRow}
    (h : strLeB x.createdAt y.createdAt = true) :
    sortInsert x (y :: ys) = x :: y :: ys := by
  unfold sortInsert
  rw [h]
  simp

theorem sortByCreatedAt_sorted_id {l : List ProfileRow}
    (h : List.Chain' (fun a b => strLeB a.createdAt b.createdAt = true) l) :
    sortByCreatedAt l = l := by
  induction l with
  | nil => rfl
  | cons x xs ih =>
    have hxs := List.Chain'.tail h
    rw [sortByCreatedAt, ih hxs]
    cases xs with
    | nil => rfl
    | cons y ys =>
      exact sortInsert_head (List.chain'_cons.mp h).1

theorem readRows_notmem {rows : List ProfileDataRow} {out : PData} {k : String}
    (h : ∀ r ∈ rows, r.profileId ≠ k) :
    pdGet (readProfileDataRows rows out) k = pdGet out k := by
  induction rows generalizing out with
  | nil => rfl
  | cons r rest ih =>
    have hr : r.profileId ≠ k := h r (List.mem_cons_self r rest)
    have hrest : ∀ x ∈ rest, x.profileId ≠ k := fun x hx => h x (List.mem_cons_of_mem r hx)
    unfold readProfileDataRows
    by_cases hskip : dataRowSkip r = true
    · rw [if_pos hskip]; exact ih hrest
    · rw [if_neg hskip, ih hrest, pdGet_pdSet_other _ _ _ _ hr.symm]

theorem readRows_mem {rows : List ProfileDataRow} {out : PData} {k : String}
    {row : ProfileDataRow}
    (hnd : (rows.map (·.profileId)).Nodup) (hrow : row ∈ rows) (hk : row.profileId = k) :
    pdGet (readProfileDataRows rows out) k =
      (if dataRowSkip row then pdGet out k else some (payloadOfRow row)) := by
  induction rows generalizing out with
  | nil => cases hrow
  | cons r rest ih =>
    have hnd' : (r.profileId :: rest.map (·.profileId)).Nodup := hnd
    rcases List.nodup_cons.mp hnd' with ⟨hh, ht⟩
    rcases List.mem_cons.mp hrow with rfl | hmem
    · have hnot : ∀ x ∈ rest, x.profileId ≠ k := by
        intro x hx he
        exact hh (by rw [← hk] at he; exact he ▸ List.mem_map_of_mem (·.profileId) hx)
      unfold readProfileDataRows
      by_cases hskip : dataRowSkip row = true
      · rw [if_pos hskip, if_pos hskip]
        exact readRows_notmem hnot
      · rw [if_neg hskip, if_neg hskip, readRows_notmem hnot, hk, pdGet_pdSet_same]
    · have hrk : r.profileId ≠ k := by
        intro he
        exact hh (by rw [← hk] at he; exact he ▸ List.mem_map_of_mem (·.profileId) hmem)
      unfold readProfileDataRows
      by_cases hskip : dataRowSkip r = true
      · rw [if_pos hskip]; exact ih ht hmem
      · rw [if_neg hskip, ih ht hmem]
        by_cases hsk : dataRowSkip row = true
        · rw [if_pos hsk, if_pos hsk, pdGet_pdSet_other _ _ _ _ hrk.symm]
        · rw [if_neg hsk, if_neg hsk]

theorem dataRows_keys_sublist (db : TraekyDb) (ps : List ProfileSummary) :
    List.Sublist ((ps.filterMap (dataRowOf db)).map (·.profileId)) (ps.map (·.id)) := by
  induction ps with
  | nil => simp
  | cons p rest ih =>
    simp only [List.filterMap_cons, List.map_cons]
    cases hrow : dataRowOf db p with
    | none => exact ih.cons p.id
    | some row =>
      simp only [List.map_cons, dataRowOf_profileId hrow]
      exact ih.cons₂ p.id

theorem valid_pdGet_none {db : TraekyDb}
    (horph : ∀ kv ∈ db.profileData, ∀ _e ∈ kv.2.toList, kv.1 ∈ profileIds db)
    {id : String} (hid : id ∉ profileIds db) : pdGet db.profileData id = none := by
  unfold pdGet
  cases hfind : db.profileData.find? (fun e => e.1 = id) with
  | none => rfl
  | some kv =>
    have hkv : kv ∈ db.profileData := List.mem_of_find?_eq_some hfind
    have hkey : kv.1 = id := by
      have := List.find?_some hfind
      simpa using this
    cases hv : kv.2 with
    | none => exact hv
    | some e =>
      exact absurd (hkey ▸ horph kv hkv e (by rw [hv]; exact List.mem_singleton.mpr rfl)) hid

theorem list_filterMap_id {α : Type} (F : α → Option α) (l : List α)
    (h : ∀ x ∈ l, F x = some x) : l.filterMap F = l := by
  induction l with
  | nil => rfl
  | cons a t ih =>
    rw [List.filterMap_cons, h a (List.mem_cons_self a t),
      ih (fun x hx => h x (List.mem_cons_of_mem a hx))]

/-- C2 (amended): serializing a valid database to the relational file and
parsing it back reproduces every field the format captures, with the
profile list reproduced exactly whenever it is sorted by createdAt (the
parser reads profiles ORDER BY created_at, which is where the unrestricted
claim fails). -/
theorem sqlite_roundtrip (now now2 fallbackLang : String) (db : TraekyDb) (f : SqliteFile)
    (hser : serializeDbToSqlite now db = .ok f)
    (hvalid : ValidDb db)
    (hsorted : List.Chain' (fun a b => strLeB a.createdAt b.createdAt = true)
      db.index.profiles) :
    (parseDbFromSqlite now2 fallbackLang f).version = db.version ∧
    (parseDbFromSqlite now2 fallbackLang f).createdAt = db.createdAt ∧
    (parseDbFromSqlite now2 fallbackLang f).updatedAt = db.updatedAt ∧
    (parseDbFromSqlite now2 fallbackLang f).index.profiles = db.index.profiles ∧
    (parseDbFromSqlite now2 fallbackLang f).index.currentProfileId =
      db.index.currentProfileId ∧
    (∀ id, pdGet (parseDbFromSqlite now2 fallbackLang f).profileData id =
      pdGet db.profileData id) ∧
    (parseDbFromSqlite now2 fallbackLang f).ui = db.ui ∧
    (parseDbFromSqlite now2 fallbackLang f).meta.revision = db.meta.revision := by
  obtain ⟨hv1, hv2, hv3, hnodup, hvp, hvc, horph, hvpay, hlang, hmode, hrev⟩ := hvalid
  rw [serializeDbToSqlite_eq now db hnodup] at hser
  obtain rfl : _ = f := Except.ok.inj hser
  have hmC : getMeta (serializedFile now db) "createdAt" = some db.createdAt := by
    simp [getMeta, serializedFile, List.find?, hv2]
  have hmU : getMeta (serializedFile now db) "updatedAt" = some db.updatedAt := by
    simp [getMeta, serializedFile, List.find?, hv3]
  have hmR : getMeta (serializedFile now db) "revision" =
      some (natToStr (max 1 db.meta.revision).toNat) := by
    simp [getMeta, serializedFile, List.find?]
  have hmP : getMeta (serializedFile now db) "currentProfileId" =
      some (db.index.currentProfileId.getD "") := by
    simp [getMeta, serializedFile, List.find?]
  have hsort : sortByCreatedAt (db.index.profiles.map profRowOf) =
      db.index.profiles.map profRowOf := by
    apply sortByCreatedAt_sorted_id
    rw [List.chain'_map]
    exact hsorted
  have hprofiles : (readProfilesIndex (serializedFile now db)).profiles =
      db.index.profiles := by
    unfold readProfilesIndex
    show ((sortByCreatedAt (db.index.profiles.map profRowOf)).filterMap _) = _
    rw [hsort, List.filterMap_map]
    apply list_filterMap_id
    intro p hp
    rcases hvp p hp with ⟨hid, hname⟩
    show (if (profRowOf p).id = "" ∨ (profRowOf p).name = "" then none
          else some { id := (profRowOf p).id, name := (profRowOf p).name,
                      createdAt := (profRowOf p).createdAt,
                      updatedAt := (profRowOf p).updatedAt }) = some p
    rw [if_neg (by simp [profRowOf, hid, hname])]
    rfl
  have hcur : (readProfilesIndex (serializedFile now db)).currentProfileId =
      db.index.currentProfileId := by
    have hread : readProfilesIndex (serializedFile now db) =
        { currentProfileId := (readProfilesIndex (serializedFile now db)).currentProfileId,
          profiles := (readProfilesIndex (serializedFile now db)).profiles } := rfl
    show (match getMeta (serializedFile now db) "currentProfileId" with
          | some c => if c ≠ "" ∧ ((readProfilesIndex (serializedFile now db)).profiles).any
              (fun p => p.id = c) then some c else none
          | none => none) = db.index.currentProfileId
    rw [hmP, hprofiles]
    cases hcid : db.index.currentProfileId with
    | none => simp
    | some c =>
      rcases hvc c (by rw [hcid]; exact List.mem_singleton.mpr rfl) with ⟨hcne, hcmem⟩
      rcases List.mem_map.mp hcmem with ⟨p, hp, hpc⟩
      have hany : db.index.profiles.any (fun p => p.id = c) = true :=
        List.any_eq_true.mpr ⟨p, hp, by simpa using hpc⟩
      simp [hcne, hany]
  have hdataNodup : ((db.index.profiles.filterMap (dataRowOf db)).map (·.profileId)).Nodup :=
    hnodup.sublist (dataRows_keys_sublist db db.index.profiles)
  have hdata : ∀ id, pdGet (readProfileData (serializedFile now db)) id =
      pdGet db.profileData id := by
    intro id
    show pdGet (readProfileDataRows (db.index.profiles.filterMap (dataRowOf db)) []) id = _
    by_cases hid : id ∈ profileIds db
    · rcases List.mem_map.mp hid with ⟨p, hp, hpid⟩
      cases hpd : pdGet db.profileData p.id with
      | some enc =>
        cases hrow : dataRowOf db p with
        | none =>
          unfold dataRowOf at hrow
          rw [hpd] at hrow
          cases hrow
        | some row =>
          have hfields : row =
              { profileId := p.id, version := (enc.version : Int),
                algorithm := enc.algorithm, salt := enc.salt, iv := enc.iv,
                ciphertext := enc.ciphertext, scope := enc.scope,
                updatedAt := p.updatedAt } := by
            unfold dataRowOf at hrow
            rw [hpd] at hrow
            exact (Option.some.inj hrow).symm
          have hmemrow : row ∈ db.index.profiles.filterMap (dataRowOf db) :=
            List.mem_filterMap.mpr ⟨p, hp, hrow⟩
          have hkeyid : row.profileId = id := by rw [hfields]; exact hpid
          rcases hvpay p hp enc (by rw [hpd]; exact List.mem_singleton.mpr rfl) with
            ⟨hever, healg, hesalt, heiv, hect, hescope⟩
          have hpne : p.id ≠ "" := (hvp p hp).1
          have hskip : dataRowSkip row = false := by
            rw [hfields]
            simp [dataRowSkip, hpne, hesalt, heiv, hect]
          have hpay : payloadOfRow row = enc := by
            rw [hfields]
            cases enc with
            | mk v a s i ct sc =>
              simp only at hever healg hescope
              subst hever healg
              unfold payloadOfRow
              simp only
              rcases hescope with h | h | h <;> (subst h; simp)
          rw [readRows_mem hdataNodup hmemrow hkeyid, hskip]
          simp only [Bool.false_eq_true, if_false]
          rw [hpay, ← hpid, hpd]
      | none =>
        have hnot : ∀ r ∈ db.index.profiles.filterMap (dataRowOf db),
            r.profileId ≠ id := by
          intro r hr he
          rcases List.mem_filterMap.mp hr with ⟨q, hq, hqr⟩
          have hqid : q.id = id := (dataRowOf_profileId hqr) ▸ he
          have hqp : q = p := List.inj_on_of_nodup_map hnodup hq hp (hqid.trans hpid.symm)
          subst hqp
          unfold dataRowOf at hqr
          rw [hpd] at hqr
          cases hqr
        rw [readRows_notmem hnot, ← hpid, hpd]
        rfl
    · have hnot : ∀ r ∈ db.index.profiles.filterMap (dataRowOf db),
          r.profileId ≠ id := by
        intro r hr he
        have : r.profileId ∈ (db.index.profiles.filterMap (dataRowOf db)).map
            (·.profileId) := List.mem_map_of_mem _ hr
        have hmemids : r.profileId ∈ profileIds db :=
          (dataRows_keys_sublist db db.index.profiles).subset this
        exact hid (he ▸ hmemids)
      rw [readRows_notmem hnot, valid_pdGet_none horph hid]
      rfl
  have hui : readUi fallbackLang (serializedFile now db) = db.ui := by
    show ({ lang := if db.ui.lang = "de" then "de" else if db.ui.lang = "en" then "en"
              else fallbackLang
            mode := if db.ui.mode = "local-only" then "local-only" else "local-only" } :
          TraekyUiSettings) = db.ui
    have hm : (if db.ui.mode = "local-only" then "local-only" else "local-only") =
        db.ui.mode := by
      rw [hmode]; simp
    have hl : (if db.ui.lang = "de" then "de" else if db.ui.lang = "en" then "en"
        else fallbackLang) = db.ui.lang := by
      rcases hlang with h | h <;> simp [h]
    rw [hm, hl]
  have hrevision : (parseDbFromSqlite now2 fallbackLang (serializedFile now db)).meta.revision
      = db.meta.revision := by
    show (match getMeta (serializedFile now db) "revision" with
          | none => (1 : Int)
          | some s =>
            if s = "" then 1
            else match strToNonnegInt? s with
                 | some n => max 1 n
                 | none => 1) = db.meta.revision
    rw [hmR]
    dsimp only
    rw [if_neg (natToStr_ne_empty _), strToNonnegInt?_natToStr]
    dsimp only
    have hmax : max 1 db.meta.revision = db.meta.revision := max_eq_right hrev
    rw [hmax]
    have hnn : (0 : Int) ≤ db.meta.revision := le_trans (by omega) hrev
    rw [show Int.ofNat db.meta.revision.toNat = db.meta.revision from Int.toNat_of_nonneg hnn]
    exact max_eq_right hrev
  refine ⟨by rw [hv1]; rfl, ?_, ?_, hprofiles, hcur, hdata, hui, hrevision⟩
  · show (getMeta (serializedFile now db) "createdAt").getD now2 = db.createdAt
    rw [hmC]
    rfl
  · show (getMeta (serializedFile now db) "updatedAt").getD
      ((getMeta (serializedFile now db) "createdAt").getD now2) = db.updatedAt
    rw [hmU]
    rfl

instance (db : TraekyDb) : Decidable (ValidDb db) := by
  unfold ValidDb
  infer_instance

def cexOrdP1 : ProfileSummary :=
  { id := "b2", name := "B", createdAt := "2024-06-02T00:00:00.000Z",
    updatedAt := "2024-06-02T00:00:00.000Z" }

def cexOrdP2 : ProfileSummary :=
  { id := "a1", name := "A", createdAt := "2024-06-01T00:00:00.000Z",
    updatedAt := "2024-06-01T00:00:00.000Z" }

def cexOrdDb : TraekyDb :=
  { version := 1, createdAt := "2024-06-01T00:00:00.000Z",
    updatedAt := "2024-06-02T00:00:00.000Z"
    index := { currentProfileId := some "b2", profiles := [cexOrdP1, cexOrdP2] }
    profileData := []
    ui := { lang := "en", mode := "local-only" }
    meta := { revision := 2 } }

def cexOrdParsed : TraekyDb :=
  parseDbFromSqlite "2024-06-03T00:00:00.000Z" "en"
    (serializedFile "2024-06-03T00:00:00.000Z" cexOrdDb)

/-- The original C2 is false at this valid database: its profile list is
not ordered by createdAt, and parseDbFromSqlite reads profiles ORDER BY
created_at ASC, so the round trip returns the two profiles in the opposite
order and the profile list is not reproduced. -/
theorem sqlite_roundtrip_order_cex :
    ValidDb cexOrdDb ∧
    serializeDbToSqlite "2024-06-03T00:00:00.000Z" cexOrdDb =
      .ok (serializedFile "2024-06-03T00:00:00.000Z" cexOrdDb) ∧
    cexOrdDb.index.profiles = [cexOrdP1, cexOrdP2] ∧
    cexOrdParsed.index.profiles = [cexOrdP2, cexOrdP1] ∧
    cexOrdParsed.index.profiles ≠ cexOrdDb.index.profiles := by
  refine ⟨by decide, serializeDbToSqlite_eq _ _ (by decide), by decide, by decide, by decide⟩

def wRoundPay : EncryptedPayload :=
  { version := 1, algorithm := "AES-GCM", salt := "c2FsdA==", iv := "aXY=",
    ciphertext := "Y3Q=", scope := some "pin" }

def wRoundP1 : ProfileSummary :=
  { id := "a1", name := "A", createdAt := "2024-06-01T00:00:00.000Z",
    updatedAt := "2024-06-01T00:00:00.000Z" }

def wRoundP2 : ProfileSummary :=
  { id := "b2", name := "B", createdAt := "2024-06-02T00:00:00.000Z",
    updatedAt := "2024-06-02T00:00:00.000Z" }

def wRoundDb : TraekyDb :=
  { version := 1, createdAt := "2024-06-01T00:00:00.000Z",
    updatedAt := "2024-06-02T00:00:00.000Z"
    index := { currentProfileId := some "a1", profiles := [wRoundP1, wRoundP2] }
    profileData := [("a1", some wRoundPay)]
    ui := { lang := "en", mode := "local-only" }
    meta := { revision := 5 } }

theorem sqlite_roundtrip_witness :
    serializeDbToSqlite "2024-07-01T00:00:00.000Z" wRoundDb =
      .ok (serializedFile "2024-07-01T00:00:00.000Z" wRoundDb) ∧
    ValidDb wRoundDb ∧
    List.Chain' (fun a b => strLeB a.createdAt b.createdAt = true)
      wRoundDb.index.profiles ∧
    (parseDbFromSqlite "2024-07-02T00:00:00.000Z" "de"
      (serializedFile "2024-07-01T00:00:00.000Z" wRoundDb)).index.profiles =
      wRoundDb.index.profiles ∧
    (parseDbFromSqlite "2024-07-02T00:00:00.000Z" "de"
      (serializedFile "2024-07-01T00:00:00.000Z" wRoundDb)).meta.revision =
      wRoundDb.meta.revision ∧
    pdGet (parseDbFromSqlite "2024-07-02T00:00:00.000Z" "de"
      (serializedFile "2024-07-01T00:00:00.000Z" wRoundDb)).profileData "a1" =
      pdGet wRoundDb.profileData "a1" := by
  have hchain : List.Chain' (fun a b => strLeB a.createdAt b.createdAt = true)
      wRoundDb.index.profiles := by
    refine List.chain'_cons.mpr ⟨by decide, ?_⟩
    exact List.chain'_singleton _
  have hser := serializeDbToSqlite_eq "2024-07-01T00:00:00.000Z" wRoundDb (by decide)
  have h := sqlite_roundtrip "2024-07-01T00:00:00.000Z" "2024-07-02T00:00:00.000Z" "de"
    wRoundDb (serializedFile "2024-07-01T00:00:00.000Z" wRoundDb)
    hser (by decide) hchain
  exact ⟨hser, by decide, hchain, h.2.2.2.1, h.2.2.2.2.2.2.2,
    h.2.2.2.2.2.1 "a1"⟩

/-! ## C10: orphan payload entries are not serialized -/

theorem insertAll_rows_sub (dbObj : TraekyDb) {ps : List ProfileSummary}
    {pr prF : List ProfileRow} {dr drF : List ProfileDataRow}
    (h : insertAllProfiles dbObj ps (pr, dr) = .ok (prF, drF)) :
    ∀ r ∈ drF, r ∈ dr ∨ ∃ q ∈ ps, r.profileId = q.id := by
  induction ps generalizing pr dr with
  | nil =>
    obtain ⟨-, rfl⟩ : prF = pr ∧ drF = dr := by
      unfold insertAllProfiles at h
      have := Except.ok.inj h
      exact ⟨congrArg Prod.fst this.symm, congrArg Prod.snd this.symm⟩
    intro r hr
    exact .inl hr
  | cons p rest ih =>
    unfold insertAllProfiles at h
    cases hpr : pr.any (fun r => r.id = p.id) with
    | true => rw [hpr] at h; simp at h
    | false =>
      rw [hpr] at h
      simp only [Bool.false_eq_true, if_false] at h
      cases hrow : dataRowOf dbObj p with
      | some row =>
        rw [hrow] at h
        cases hdr : dr.any (fun r => r.profileId = p.id) with
        | true => rw [hdr] at h; simp at h
        | false =>
          rw [hdr] at h
          simp only [Bool.false_eq_true, if_false] at h
          intro r hr
          rcases ih h r hr with hin | ⟨q, hq, hqe⟩
          · rcases List.mem_append.mp hin with hin | hin
            · exact .inl hin
            · rcases List.mem_singleton.mp hin with rfl
              exact .inr ⟨p, List.mem_cons_self p rest, dataRowOf_profileId hrow⟩
          · exact .inr ⟨q, List.mem_cons_of_mem p hq, hqe⟩
      | none =>
        rw [hrow] at h
        intro r hr
        rcases ih h r hr with hin | ⟨q, hq, hqe⟩
        · exact .inl hin
        · exact .inr ⟨q, List.mem_cons_of_mem p hq, hqe⟩

/-- C10: a successful serialization writes a profile_data row only for
profile ids present in the profile index, so payload entries keyed by an
id absent from the index are omitted and parsing the file never yields the
orphan payload. -/
theorem serializeDbToSqlite_no_orphans (now now2 lang : String) (db : TraekyDb)
    (f : SqliteFile) (hser : serializeDbToSqlite now db = .ok f) :
    (∀ r ∈ f.dataRows, r.profileId ∈ profileIds db) ∧
    (∀ id, id ∉ profileIds db →
      pdGet (parseDbFromSqlite now2 lang f).profileData id = none) := by
  cases hins : insertAllProfiles db db.index.profiles ([], []) with
  | error e =>
    exfalso
    unfold serializeDbToSqlite at hser
    rw [hins] at hser
    simp [Except.bind] at hser
  | ok pair =>
    obtain ⟨prF, drF⟩ := pair
    unfold serializeDbToSqlite at hser
    rw [hins] at hser
    simp only [Except.bind, pure, Except.pure] at hser
    obtain rfl : _ = f := Except.ok.inj hser
    have hrows : ∀ r ∈ drF, r.profileId ∈ profileIds db := by
      intro r hr
      rcases insertAll_rows_sub db hins r hr with hin | ⟨q, hq, hqe⟩
      · cases hin
      · exact hqe ▸ List.mem_map_of_mem (·.id) hq
    refine ⟨hrows, ?_⟩
    intro id hid
    have hnot : ∀ r ∈ drF, r.profileId ≠ id := by
      intro r hr he
      exact hid (he ▸ hrows r hr)
    show pdGet (readProfileDataRows drF []) id = none
    rw [readRows_notmem hnot]
    rfl

def wOrphProfile : ProfileSummary :=
  { id := "keep-1", name := "Keep", createdAt := "2024-06-01T00:00:00.000Z",
    updatedAt := "2024-06-01T00:00:00.000Z" }

def wOrphDb : TraekyDb :=
  { version := 1, createdAt := "2024-06-01T00:00:00.000Z",
    updatedAt := "2024-06-01T00:00:00.000Z"
    index := { currentProfileId := some "keep-1", profiles := [wOrphProfile] }
    profileData := [("keep-1", some wRoundPay), ("ghost-9", some wRoundPay)]
    ui := { lang := "en", mode := "local-only" }
    meta := { revision := 1 } }

theorem serializeDbToSqlite_no_orphans_witness :
    serializeDbToSqlite "2024-07-01T00:00:00.000Z" wOrphDb =
      .ok (serializedFile "2024-07-01T00:00:00.000Z" wOrphDb) ∧
    pdGet wOrphDb.profileData "ghost-9" = some wRoundPay ∧
    "ghost-9" ∉ profileIds wOrphDb ∧
    pdGet (parseDbFromSqlite "2024-07-02T00:00:00.000Z" "en"
      (serializedFile "2024-07-01T00:00:00.000Z" wOrphDb)).profileData "ghost-9" = none := by
  have hser := serializeDbToSqlite_eq "2024-07-01T00:00:00.000Z" wOrphDb (by decide)
  have h := serializeDbToSqlite_no_orphans "2024-07-01T00:00:00.000Z"
    "2024-07-02T00:00:00.000Z" "en" wOrphDb
    (serializedFile "2024-07-01T00:00:00.000Z" wOrphDb) hser
  exact ⟨hser, by decide, by decide, h.2 "ghost-9" (by decide)⟩

/-! ## JSON values

Parsed JSON (the output of JSON.parse) is modelled by the inductive
`Json`; JS `undefined` (an absent object field) is `Option.none` at use
sites.  JSON numbers are modelled as integers: every number the database
formats read or write is integral. -/

inductive Json where
  | null : Json
  | bool (b : Bool) : Json
  | num (n : Int) : Json
  | str (s : String) : Json
  | arr (xs : List Json) : Json
  | obj (fields : List (String × Json)) : Json

/-- Object field access (`undefined`, i.e. `none`, on non-objects).
JSON.parse yields objects with unique keys, which first-match lookup
relies on. -/
def getField (j : Json) (k : String) : Option Json :=
  match j with
  | .obj fields => (fields.find? (fun e => e.1 = k)).map (·.2)
  | _ => none

/-- `!!value && typeof value === "object"`: objects and arrays (null is
falsy). -/
def objLike (j : Json) : Bool :=
  match j with
  | .obj _ => true
  | .arr _ => true
  | _ => false

/-- The stricter isObject of the legacy migrator, which also excludes
arrays (`!Array.isArray(value)`). -/
def jsObjStrict (j : Json) : Bool :=
  match j with
  | .obj _ => true
  | _ => false

/-- JS truthiness of a parsed JSON value. -/
def jsTruthy (j : Json) : Bool :=
  match j with
  | .null => false
  | .bool b => b
  | .num n => n ≠ 0
  | .str s => s ≠ ""
  | .arr _ => true
  | .obj _ => true

/-- `typeof v === "string" ? v : <none>`. -/
def asStr : Option Json → Option String
  | some (.str s) => some s
  | _ => none

/-- looksLikeEncryptedPayload from legacyLocalStorageMigration.ts: the
exact field set `{version: 1, algorithm: "AES-GCM", salt, iv, ciphertext}`
with string salt/iv/ciphertext, on a non-array object. -/
def looksLikeEncryptedPayload (v : Json) : Bool :=
  jsObjStrict v &&
  (match getField v "version" with | some (.num 1) => true | _ => false) &&
  (match getField v "algorithm" with | some (.str s) => s = "AES-GCM" | _ => false) &&
  (asStr (getField v "salt")).isSome &&
  (asStr (getField v "iv")).isSome &&
  (asStr (getField v "ciphertext")).isSome

/-- The typed payload of a JSON value that passes
looksLikeEncryptedPayload (the sources keep the raw object through an
unchecked cast; the typed model extracts the payload fields, plus the
optional string scope tag). -/
def jsonToPayload (v : Json) : EncryptedPayload :=
  { version := 1
    algorithm := "AES-GCM"
    salt := (asStr (getField v "salt")).getD ""
    iv := (asStr (getField v "iv")).getD ""
    ciphertext := (asStr (getField v "ciphertext")).getD ""
    scope := asStr (getField v "scope") }

/-- A `Record<ProfileId, EncryptedPayload | undefined>` received through
an unchecked cast of a JSON object: entries whose value has the encrypted
payload shape are decoded, every other entry is kept with an undefined
payload.  (The sources keep such garbage values as-is; no claim observes
them through anything but truthiness, which this model preserves for
payload-shaped values.) -/
def jsonToPData (pd : Json) : PData :=
  match pd with
  | .obj fields => fields.map (fun kv =>
      (kv.1, if looksLikeEncryptedPayload kv.2 then some (jsonToPayload kv.2) else none))
  | _ => []

/-! ## The strict portable-file parser (src/unnamed/part_005 parseDb)

It throws "Unsupported database format" on a top-level value that is not
an object or whose version is not 1, and otherwise fills missing fields
with the documented defaults.  JSON.parse runs before it; a syntactically
invalid text throws a SyntaxError upstream and never reaches this
function, so the model takes the parsed value. -/

def versionIsOne (j : Json) : Bool :=
  match getField j "version" with
  | some (.num 1) => true
  | _ => false

namespace StrictDb

def parseDb (now : String) (j : Json) : Except String TraekyDb :=
  if objLike j && versionIsOne j then
    let createdAt := match asStr (getField j "createdAt") with
      | some s => s
      | none => now
    let updatedAt := match asStr (getField j "updatedAt") with
      | some s => s
      | none => createdAt
    let indexRaw : Json := match getField j "index" with
      | some ix => if objLike ix then ix else .obj []
      | none => .obj []
    let profilesRaw : List Json := match getField indexRaw "profiles" with
      | some (.arr xs) => xs
      | _ => []
    let profiles : List ProfileSummary := profilesRaw.filterMap (fun p =>
      match asStr (getField p "id"), asStr (getField p "name") with
      | some id, some name =>
        some { id := id, name := name
               createdAt := (asStr (getField p "createdAt")).getD createdAt
               updatedAt := (asStr (getField p "updatedAt")).getD updatedAt }
      | _, _ => none)
    let currentProfileId : Option String := asStr (getField indexRaw "currentProfileId")
    let profileData : PData := match getField j "profileData" with
      | some pd => if objLike pd then jsonToPData pd else []
      | none => []
    let uiRaw : Json := match getField j "ui" with
      | some u => if objLike u then u else .obj []
      | none => .obj []
    let lang := match asStr (getField uiRaw "lang") with
      | some s => if s = "de" then "de" else "en"
      | none => "en"
    let mode := match asStr (getField uiRaw "mode") with
      | some s => if s = "local-only" then "local-only" else "local-only"
      | none => "local-only"
    let metaRaw : Json := match getField j "meta" with
      | some mm => if objLike mm then mm else .obj []
      | none => .obj []
    let revision : Int := match getField metaRaw "revision" with
      | some (.num n) => max 1 n
      | _ => 1
    .ok { version := 1, createdAt := createdAt, updatedAt := updatedAt
          index := { currentProfileId := currentProfileId, profiles := profiles }
          profileData := profileData
          ui := { lang := lang, mode := mode }
          meta := { revision := revision } }
  else .error "Unsupported database format"

end StrictDb

/-! ## The defensive portable-file parser (src/storage/traekyDb.ts parseDb)

This superseded variant never throws: a malformed payload (including text
JSON.parse rejects, modelled as `none`) yields a fresh empty database.
The source passes several sub-values through unchecked casts; where it
does, the model decodes strings/payload-shaped values and falls back to
the same base defaults for other values (no claim depends on the
ill-typed corners). -/

namespace DefensiveDb

def decodeProfileLoose (outerCreated outerUpdated : String) (p : Json) : ProfileSummary :=
  { id := (asStr (getField p "id")).getD ""
    name := (asStr (getField p "name")).getD ""
    createdAt := (asStr (getField p "createdAt")).getD outerCreated
    updatedAt := (asStr (getField p "updatedAt")).getD outerUpdated }

def parseDb (now : String) (input : Option Json) : TraekyDb :=
  let base := createEmptyDb now "en"
  match input with
  | none => base
  | some j =>
    if objLike j then
      let createdAt := (asStr (getField j "createdAt")).getD base.createdAt
      let updatedAt := (asStr (getField j "updatedAt")).getD base.updatedAt
      let index : ProfilesIndex := match getField j "index" with
        | some ix =>
          if objLike ix then
            { currentProfileId := asStr (getField ix "currentProfileId")
              profiles := match getField ix "profiles" with
                | some (.arr xs) => xs.map (decodeProfileLoose createdAt updatedAt)
                | _ => base.index.profiles }
          else base.index
        | none => base.index
      let profileData : PData := match getField j "profileData" with
        | some pd => if jsObjStrict pd then jsonToPData pd else base.profileData
        | none => base.profileData
      let ui : TraekyUiSettings := match getField j "ui" with
        | some u =>
          if objLike u then
            { lang := (asStr (getField u "lang")).getD base.ui.lang
              mode := (asStr (getField u "mode")).getD base.ui.mode }
          else base.ui
        | none => base.ui
      let meta : TraekyDbMeta := match getField j "meta" with
        | some mm =>
          if objLike mm then
            { revision := match getField mm "revision" with
                | some (.num n) => n
                | _ => base.meta.revision }
          else base.meta
        | none => base.meta
      { version := match getField j "version" with
          | some (.num n) => n.toNat
          | _ => base.version
        createdAt := createdAt, updatedAt := updatedAt
        index := index, profileData := profileData, ui := ui, meta := meta }
    else base

end DefensiveDb

/-! ## Claim C3 -/

/-- C3 (amended, for the part_005 parseDb): a top-level value that is not
an object or whose version marker is not 1 fails with the unsupported-
format error; a valid top level always yields a database, and each missing
optional field takes its documented default (createdAt: now; updatedAt:
createdAt; index: empty with null current profile; profileData: empty; ui:
language "en" and mode "local-only"; meta: revision 1). -/
theorem parseDb_strict_semantics (now : String) (j : Json) :
    ((objLike j = false ∨ versionIsOne j = false) →
      StrictDb.parseDb now j = .error "Unsupported database format") ∧
    (objLike j = true → versionIsOne j = true →
      ∃ db, StrictDb.parseDb now j = .ok db) ∧
    (∀ db, StrictDb.parseDb now j = .ok db →
      (getField j "createdAt" = none → db.createdAt = now) ∧
      (getField j "updatedAt" = none → db.updatedAt = db.createdAt) ∧
      (getField j "index" = none →
        db.index = { currentProfileId := none, profiles := [] }) ∧
      (getField j "profileData" = none → db.profileData = []) ∧
      (getField j "ui" = none → db.ui = { lang := "en", mode := "local-only" }) ∧
      (getField j "meta" = none → db.meta = { revision := 1 })) := by
  refine ⟨?_, ?_, ?_⟩
  · intro h
    have hguard : (objLike j && versionIsOne j) = false := by
      rcases h with h | h <;> simp [h]
    unfold StrictDb.parseDb
    simp [hguard]
  · intro h1 h2
    have hguard : (objLike j && versionIsOne j) = true := by simp [h1, h2]
    unfold StrictDb.parseDb
    simp only [hguard, if_true]
    exact ⟨_, rfl⟩
  · intro db hdb
    by_cases hguard : (objLike j && versionIsOne j) = true
    · unfold StrictDb.parseDb at hdb
      simp only [hguard, if_true] at hdb
      obtain rfl : _ = db := Except.ok.inj hdb
      refine ⟨?_, ?_, ?_, ?_, ?_, ?_⟩
      · intro hc
        simp [hc, asStr]
      · intro hu
        simp [hu, asStr]
      · intro hix
        simp only [hix]
        rfl
      · intro hpd
        simp only [hpd]
      · intro hui
        simp only [hui]
        rfl
      · intro hm
        simp only [hm]
        rfl
    · exfalso
      unfold StrictDb.parseDb at hdb
      rw [Bool.not_eq_true] at hguard
      simp [hguard] at hdb

def strictMinimalJ : Json := .obj [("version", .num 1)]

def strictMinimalParsed : TraekyDb :=
  match StrictDb.parseDb "2024-01-01T00:00:00.000Z" strictMinimalJ with
  | .ok db => db
  | .error _ => createEmptyDb "ERR" "en"

theorem parseDb_strict_semantics_witness :
    StrictDb.parseDb "2024-01-01T00:00:00.000Z" (Json.num 42) =
      .error "Unsupported database format" ∧
    StrictDb.parseDb "2024-01-01T00:00:00.000Z" strictMinimalJ =
      .ok strictMinimalParsed ∧
    strictMinimalParsed.createdAt = "2024-01-01T00:00:00.000Z" ∧
    strictMinimalParsed.updatedAt = strictMinimalParsed.createdAt ∧
    strictMinimalParsed.index = { currentProfileId := none, profiles := [] } ∧
    strictMinimalParsed.profileData = [] ∧
    strictMinimalParsed.ui = { lang := "en", mode := "local-only" } ∧
    strictMinimalParsed.meta = { revision := 1 } := by
  have hbad := (parseDb_strict_semantics "2024-01-01T00:00:00.000Z" (Json.num 42)).1
    (Or.inl rfl)
  have h := (parseDb_strict_semantics "2024-01-01T00:00:00.000Z" strictMinimalJ).2.2
    strictMinimalParsed rfl
  exact ⟨hbad, rfl, h.1 rfl, h.2.1 rfl, h.2.2.1 rfl, h.2.2.2.1 rfl,
    h.2.2.2.2.1 rfl, h.2.2.2.2.2 rfl⟩

/-- The original C3 is false for the defensive parseDb of
src/storage/traekyDb.ts, which the claim also cites: on a structurally
invalid top-level value (a number, or text JSON.parse rejects) it returns
a fresh empty database instead of failing with UnsupportedFormatError. -/
theorem parseDb_defensive_no_error_cex :
    DefensiveDb.parseDb "2024-01-01T00:00:00.000Z" (some (Json.num 42)) =
      createEmptyDb "2024-01-01T00:00:00.000Z" "en" ∧
    DefensiveDb.parseDb "2024-01-01T00:00:00.000Z" none =
      createEmptyDb "2024-01-01T00:00:00.000Z" "en" :=
  ⟨rfl, rfl⟩

/-! ## profileSecurity.ts

sha256Hex wraps the platform Web Crypto SHA-256 digest; it is not
repository code and is modelled as an explicit function parameter `sha`.
Statements that need collision-freeness assume `sha` injective (the
standard collision-resistance idealization). -/

/-- hashPinLegacy (v1): sha256Hex of `PROFILE_PIN_SALT_LEGACY + ":" + pin`
(the salt is an optional env secret, passed as a parameter). -/
def hashPinLegacy (sha : String → String) (legacySalt : String) (pin : String) : String :=
  sha (legacySalt ++ ":" ++ pin)

/-- hashPinForProfile (v2, profile-scoped). -/
def hashPinForProfile (sha : String → String) (profileId pin : String) : String :=
  sha ("traeky:pin-hash:v2:" ++ profileId ++ ":" ++ pin)

/-- deriveProfilePassphrase (v2): binds the encryption key to the
profileId. -/
def deriveProfilePassphrase (profileId pin : String) : String :=
  "traeky:profile-encryption:v2:" ++ profileId ++ ":" ++ pin

/-- Modelled from the spec: encryptJsonWithPassphrase and
decryptJsonWithPassphrase live in crypto/cryptoService, whose
implementation is absent from src (only the EncryptedPayload type is
there).  Spec section 4.1: decryption with the correct passphrase returns
the plaintext and with a wrong passphrase fails with DecryptionError
(authenticated encryption), never silently returning garbage.  The
ideal-AEAD model records the passphrase with the plaintext and makes
decryption succeed exactly on a passphrase match. -/
inductive CipherBlob (α : Type) where
  | mk (passphrase : String) (plain : α)

/-- Modelled from the spec: symbolic encryptJsonWithPassphrase. -/
def encryptJsonWithPassphrase {α : Type} (payload : α) (passphrase : String) :
    CipherBlob α :=
  .mk passphrase payload

/-- Modelled from the spec: symbolic decryptJsonWithPassphrase;
`none` models the DecryptionError throw. -/
def decryptJsonWithPassphrase {α : Type} (blob : CipherBlob α) (passphrase : String) :
    Option α :=
  match blob with
  | .mk p m => if p = passphrase then some m else none

theorem strConcat_inj (pre mid : String) {A B pin : String}
    (h : pre ++ A ++ mid ++ pin = pre ++ B ++ mid ++ pin) : A = B := by
  have hd := congrArg String.data h
  simp only [String.data_append, List.append_assoc] at hd
  have h1 := List.append_cancel_left hd
  exact String.ext (List.append_cancel_right h1)

/-- C7: for the same PIN and two distinct profile ids, the v2-derived
passphrases differ, the v2 PIN hashes differ (given the SHA-256
collision-resistance idealization), and a payload encrypted under A's
derived passphrase does not decrypt under B's. -/
theorem pin_scoping (sha : String → String) (hinj : Function.Injective sha)
    {α : Type} (payload : α) (pin A B : String) (hAB : A ≠ B) :
    deriveProfilePassphrase A pin ≠ deriveProfilePassphrase B pin ∧
    hashPinForProfile sha A pin ≠ hashPinForProfile sha B pin ∧
    decryptJsonWithPassphrase
      (encryptJsonWithPassphrase payload (deriveProfilePassphrase A pin))
      (deriveProfilePassphrase B pin) = none := by
  have hpass : deriveProfilePassphrase A pin ≠ deriveProfilePassphrase B pin := by
    intro h
    exact hAB (strConcat_inj "traeky:profile-encryption:v2:" ":" h)
  refine ⟨hpass, ?_, ?_⟩
  · intro h
    exact hAB (strConcat_inj "traeky:pin-hash:v2:" ":" (hinj h))
  · unfold encryptJsonWithPassphrase decryptJsonWithPassphrase
    simp [hpass]

theorem pin_scoping_witness :
    Function.Injective (fun s : String => s) ∧
    ("alice-1" : String) ≠ "bob-2" ∧
    deriveProfilePassphrase "alice-1" "1234" ≠ deriveProfilePassphrase "bob-2" "1234" ∧
    hashPinForProfile (fun s => s) "alice-1" "1234" ≠
      hashPinForProfile (fun s => s) "bob-2" "1234" ∧
    decryptJsonWithPassphrase
      (encryptJsonWithPassphrase (0 : Nat) (deriveProfilePassphrase "alice-1" "1234"))
      (deriveProfilePassphrase "bob-2" "1234") = none := by
  have hinj : Function.Injective (fun s : String => s) := fun _ _ h => h
  have h := pin_scoping (fun s => s) hinj (0 : Nat) "1234" "alice-1" "bob-2" (by decide)
  exact ⟨hinj, by decide, h.1, h.2.1, h.2.2⟩

/-! ## profileStore.ts: sessions, login, transaction ids

The store's module state (the cached profiles index, the PIN-hash index,
the per-profile encrypted payloads in the key-value store, and the active
session) is a `StoreState`.  The kvSet mirror writes and scheduleAutoSync
calls persist the same values that the cached copies hold and carry no
extra observable state, so the cached state stands for both.  Transaction
and AppConfig values (src/domain, not under src/) are opaque type
parameters, as are the encrypted blobs; encryption and SHA-256 are
function parameters as above. -/

structure ProfileDataPayload (Tx Cfg : Type) where
  version : Nat
  transactions : List Tx
  /-- A JS number holding a positive integer counter; integer increments
  are exact in doubles throughout any feasible run, so `Nat` models it. -/
  nextTransactionId : Nat
  config : Cfg

/-- A ProfilePinIndex entry: either a bare legacy hash string or a
versioned `{v, hash}` record. -/
inductive StoredPin where
  | raw (hash : String)
  | entry (v : Nat) (hash : String)
deriving DecidableEq, Repr

/-- `typeof stored === "string" ? { v: 1, hash: stored } : stored`. -/
def normalizePin : StoredPin → Nat × String
  | .raw h => (1, h)
  | .entry v h => (v, h)

structure ActiveSession (Tx Cfg : Type) where
  meta : ProfileSummary
  pinHash : String
  pinHashVersion : Nat
  pin : String
  data : ProfileDataPayload Tx Cfg

structure StoreState (Tx Cfg Blob : Type) where
  index : ProfilesIndex
  pinIndex : List (String × StoredPin)
  payloads : List (String × Blob)
  active : Option (ActiveSession Tx Cfg)

def kvLookup {β : Type} (l : List (String × β)) (k : String) : Option β :=
  (l.find? (fun e => e.1 = k)).map (·.2)

def kvStore {β : Type} : List (String × β) → String → β → List (String × β)
  | [], k, v => [(k, v)]
  | e :: rest, k, v => if e.1 = k then (k, v) :: rest else e :: kvStore rest k v

def buildProfileDataKey (profileId : String) : String :=
  "traeky:profile:" ++ profileId ++ ":data"

/-- persistActiveProfile: re-encrypts the active payload under the
PIN-derived passphrase, stores it, and writes the index with a touched
updatedAt and the active profile as current. -/
def persistActiveProfile {Tx Cfg Blob : Type}
    (enc : ProfileDataPayload Tx Cfg → String → Blob) (now : String)
    (st : StoreState Tx Cfg Blob) : StoreState Tx Cfg Blob :=
  match st.active with
  | none => st
  | some s =>
    let encrypted := enc s.data (deriveProfilePassphrase s.meta.id s.pin)
    let updatedProfiles := st.index.profiles.map (fun p =>
      if p.id = s.meta.id then { p with updatedAt := now, name := s.meta.name } else p)
    { st with
        payloads := kvStore st.payloads (buildProfileDataKey s.meta.id) encrypted
        index := { currentProfileId := some s.meta.id, profiles := updatedProfiles } }

inductive LoginError where
  | profileNotFound
  | invalidPin
  | dataNotFound
  | unsupportedVersion
  | legacyUnavailable
  | decryptionFailed
deriving DecidableEq, Repr

/-- loginProfile.  Returns the module state after the call together with
the outcome, mirroring the mutation points of the source: nothing is
written before the PIN check; the v1-to-v2 hash upgrade is written after a
successful match; the legacy-decrypt fallback re-encrypts and stores the
payload; the index update and session creation happen last. -/
def loginProfile {Tx Cfg Blob : Type} (sha : String → String) (legacySalt : String)
    (legacyKey : Option String)
    (dec : Blob → String → Option (ProfileDataPayload Tx Cfg))
    (enc : ProfileDataPayload Tx Cfg → String → Blob) (now : String)
    (st : StoreState Tx Cfg Blob) (profileId pin : String) :
    StoreState Tx Cfg Blob × Except LoginError ProfileSummary :=
  if st.index.profiles.isEmpty then (st, .error .profileNotFound)
  else
    match st.index.profiles.find? (fun p => p.id = profileId) with
    | none => (st, .error .profileNotFound)
    | some meta =>
      match kvLookup st.pinIndex meta.id with
      | none => (st, .error .invalidPin)
      | some stored =>
        let e := normalizePin stored
        let pinHash0 :=
          if e.1 = 2 then hashPinForProfile sha meta.id pin
          else hashPinLegacy sha legacySalt pin
        if pinHash0 ≠ e.2 then (st, .error .invalidPin)
        else
          let upgraded := hashPinForProfile sha meta.id pin
          let st1 :=
            if e.1 = 1 then
              { st with pinIndex := kvStore st.pinIndex meta.id (.entry 2 upgraded) }
            else st
          let pinHash1 := if e.1 = 1 then upgraded else pinHash0
          let ver1 := if e.1 = 1 then 2 else e.1
          match kvLookup st1.payloads (buildProfileDataKey meta.id) with
          | none => (st1, .error .dataNotFound)
          | some blob =>
            let step : Except LoginError (StoreState Tx Cfg Blob × ProfileDataPayload Tx Cfg) :=
              match dec blob (deriveProfilePassphrase meta.id pin) with
              | some d => .ok (st1, d)
              | none =>
                match legacyKey with
                | none => .error .legacyUnavailable
                | some k =>
                  match dec blob k with
                  | none => .error .decryptionFailed
                  | some d =>
                    let reEnc := enc d (deriveProfilePassphrase meta.id pin)
                    let st2 :=
                      { st1 with payloads :=
                          kvStore st1.payloads (buildProfileDataKey meta.id) reEnc }
                    .ok (st2, d)
            match step with
            | .error err => (st1, .error err)
            | .ok (st2, d) =>
              if d.version ≠ 1 then (st2, .error .unsupportedVersion)
              else
                let updatedMeta := { meta with updatedAt := now }
                let updatedProfiles := st2.index.profiles.map (fun p =>
                  if p.id = meta.id then updatedMeta else p)
                ({ st2 with
                     index := { currentProfileId := some meta.id,
                                profiles := updatedProfiles }
                     active := some { meta := updatedMeta, pinHash := pinHash1,
                                      pinHashVersion := ver1, pin := pin, data := d } },
                 .ok updatedMeta)

/-- C5: a login attempt for a profile present in the index, with a PIN
whose hash (under the stored entry's scheme) does not match the stored
hash, fails with InvalidPinError and leaves the whole store state,
including the profile index, the PIN-hash index, every stored encrypted
payload file and the active session, exactly unchanged. -/
theorem loginProfile_wrong_pin {Tx Cfg Blob : Type} (sha : String → String)
    (legacySalt : String) (legacyKey : Option String)
    (dec : Blob → String → Option (ProfileDataPayload Tx Cfg))
    (enc : ProfileDataPayload Tx Cfg → String → Blob) (now : String)
    (st : StoreState Tx Cfg Blob) (profileId pin : String)
    (meta : ProfileSummary) (stored : StoredPin)
    (hfind : st.index.profiles.find? (fun p => p.id = profileId) = some meta)
    (hstored : kvLookup st.pinIndex meta.id = some stored)
    (hmismatch :
      (if (normalizePin stored).1 = 2 then hashPinForProfile sha meta.id pin
       else hashPinLegacy sha legacySalt pin) ≠ (normalizePin stored).2) :
    loginProfile sha legacySalt legacyKey dec enc now st profileId pin =
      (st, .error .invalidPin) := by
  have hne : st.index.profiles.isEmpty = false := by
    cases hp : st.index.profiles with
    | nil => rw [hp] at hfind; cases hfind
    | cons a t => rfl
  unfold loginProfile
  rw [hne]
  simp only [Bool.false_eq_true, if_false]
  rw [hfind]
  dsimp only
  rw [hstored]
  dsimp only
  rw [if_pos hmismatch]

def wLoginState : StoreState Nat Unit Unit :=
  { index := { currentProfileId := some "alice-1", profiles := [wInvProfile] }
    pinIndex := [("alice-1", .entry 2 "not-the-hash")]
    payloads := [(buildProfileDataKey "alice-1", ())]
    active := none }

theorem loginProfile_wrong_pin_witness :
    wLoginState.index.profiles.find? (fun p => p.id = "alice-1") = some wInvProfile ∧
    kvLookup wLoginState.pinIndex "alice-1" = some (.entry 2 "not-the-hash") ∧
    (if (normalizePin (.entry 2 "not-the-hash")).1 = 2 then
        hashPinForProfile (fun s => s) "alice-1" "9999"
      else hashPinLegacy (fun s => s) "salt" "9999") ≠
      (normalizePin (.entry 2 "not-the-hash")).2 ∧
    loginProfile (fun s => s) "salt" none (fun _ _ => none) (fun _ _ => ())
      "2024-05-02T10:00:00.000Z" wLoginState "alice-1" "9999" =
      (wLoginState, .error .invalidPin) := by
  refine ⟨by decide, by decide, by decide, ?_⟩
  exact loginProfile_wrong_pin (fun s => s) "salt" none (fun _ _ => none) (fun _ _ => ())
    "2024-05-02T10:00:00.000Z" wLoginState "alice-1" "9999" wInvProfile
    (.entry 2 "not-the-hash") (by decide) (by decide) (by decide)

/-! ## C6: transaction id issuance -/

/-- getNextActiveProfileTxId: throws without a session; otherwise returns
the current counter, bumps it, and schedules a persist of the bumped
payload. -/
def getNextActiveProfileTxId {Tx Cfg Blob : Type}
    (enc : ProfileDataPayload Tx Cfg → String → Blob) (now : String)
    (st : StoreState Tx Cfg Blob) : StoreState Tx Cfg Blob × Except Unit Nat :=
  match st.active with
  | none => (st, .error ())
  | some s =>
    let id := s.data.nextTransactionId
    let s1 := { s with data := { s.data with nextTransactionId := id + 1 } }
    let st1 := { st with active := some s1 }
    (persistActiveProfile enc now st1, .ok id)

/-- setActiveProfileTransactions: replaces the transaction list (deletes
included) and persists; the counter is untouched. -/
def setActiveProfileTransactions {Tx Cfg Blob : Type}
    (enc : ProfileDataPayload Tx Cfg → String → Blob) (now : String)
    (st : StoreState Tx Cfg Blob) (items : List Tx) :
    StoreState Tx Cfg Blob × Except Unit Unit :=
  match st.active with
  | none => (st, .error ())
  | some s =>
    let s1 := { s with data := { s.data with transactions := items } }
    let st1 := { st with active := some s1 }
    (persistActiveProfile enc now st1, .ok ())

inductive TxOp (Tx : Type) where
  | issueId (now : String)
  | setTransactions (items : List Tx) (now : String)

def applyTxOp {Tx Cfg Blob : Type} (enc : ProfileDataPayload Tx Cfg → String → Blob)
    (op : TxOp Tx) (st : StoreState Tx Cfg Blob) :
    StoreState Tx Cfg Blob × Option Nat :=
  match op with
  | .issueId now =>
    let r := getNextActiveProfileTxId enc now st
    (r.1, r.2.toOption)
  | .setTransactions items now =>
    ((setActiveProfileTransactions enc now st items).1, none)

/-- Runs a sequence of counter reads and transaction-list replacements,
collecting the issued ids in order. -/
def runTxOps {Tx Cfg Blob : Type} (enc : ProfileDataPayload Tx Cfg → String → Blob) :
    List (TxOp Tx) → StoreState Tx Cfg Blob → StoreState Tx Cfg Blob × List Nat
  | [], st => (st, [])
  | op :: rest, st =>
    let r1 := applyTxOp enc op st
    let r2 := runTxOps enc rest r1.1
    (r2.1, match r1.2 with
           | some i => i :: r2.2
           | none => r2.2)

def activeNextId {Tx Cfg Blob : Type} (st : StoreState Tx Cfg Blob) : Nat :=
  match st.active with
  | some s => s.data.nextTransactionId
  | none => 0

theorem persist_active_eq {Tx Cfg Blob : Type}
    (enc : ProfileDataPayload Tx Cfg → String → Blob) (now : String)
    (st : StoreState Tx Cfg Blob) :
    (persistActiveProfile enc now st).active = st.active := by
  unfold persistActiveProfile
  cases hs : st.active with
  | none => exact hs
  | some s => rfl

theorem activeNextId_persist {Tx Cfg Blob : Type}
    (enc : ProfileDataPayload Tx Cfg → String → Blob) (now : String)
    (st : StoreState Tx Cfg Blob) :
    activeNextId (persistActiveProfile enc now st) = activeNextId st := by
  unfold activeNextId
  rw [persist_active_eq]

theorem applyTxOp_spec {Tx Cfg Blob : Type} (enc : ProfileDataPayload Tx Cfg → String → Blob)
    (op : TxOp Tx) (st : StoreState Tx Cfg Blob) :
    (∀ i, (applyTxOp enc op st).2 = some i →
      i = activeNextId st ∧ activeNextId (applyTxOp enc op st).1 = i + 1) ∧
    ((applyTxOp enc op st).2 = none →
      activeNextId (applyTxOp enc op st).1 = activeNextId st) := by
  cases op with
  | issueId now =>
    cases hs : st.active with
    | none =>
      constructor
      · intro i hi
        simp [applyTxOp, getNextActiveProfileTxId, hs, Except.toOption] at hi
      · intro _
        simp [applyTxOp, getNextActiveProfileTxId, hs]
    | some s =>
      constructor
      · intro i hi
        have hival : i = s.data.nextTransactionId := by
          simp [applyTxOp, getNextActiveProfileTxId, hs, Except.toOption] at hi
          exact hi.symm
        subst hival
        refine ⟨by simp [activeNextId, hs], ?_⟩
        simp [applyTxOp, getNextActiveProfileTxId, hs, persist_active_eq, activeNextId]
      · intro hnone
        simp [applyTxOp, getNextActiveProfileTxId, hs, Except.toOption] at hnone
  | setTransactions items now =>
    constructor
    · intro i hi
      simp [applyTxOp] at hi
    · intro _
      cases hs : st.active with
      | none => simp [applyTxOp, setActiveProfileTransactions, hs]
      | some s =>
        simp [applyTxOp, setActiveProfileTransactions, hs, persist_active_eq, activeNextId]

/-- C6: over any sequence of counter reads interleaved with transaction
replacements (deletions included), the issued ids are strictly increasing
(hence pairwise distinct and never reissued), and the counter always
strictly exceeds every id it has issued. -/
theorem txId_monotone {Tx Cfg Blob : Type}
    (enc : ProfileDataPayload Tx Cfg → String → Blob) (ops : List (TxOp Tx))
    (st : StoreState Tx Cfg Blob) :
    List.Sorted (· < ·) (runTxOps enc ops st).2 ∧
    (runTxOps enc ops st).2.Nodup ∧
    activeNextId st ≤ activeNextId (runTxOps enc ops st).1 ∧
    (∀ i ∈ (runTxOps enc ops st).2,
      activeNextId st ≤ i ∧ i < activeNextId (runTxOps enc ops st).1) := by
  induction ops generalizing st with
  | nil =>
    exact ⟨List.sorted_nil, List.nodup_nil, le_refl _, by intro i hi; cases hi⟩
  | cons op rest ih =>
    have hspec := applyTxOp_spec enc op st
    have hrec := ih (applyTxOp enc op st).1
    simp only [runTxOps]
    cases hio : (applyTxOp enc op st).2 with
    | none =>
      have hstep := hspec.2 hio
      refine ⟨hrec.1, hrec.2.1, ?_, ?_⟩
      · rw [← hstep] at *
        exact hrec.2.2.1
      · intro i hi
        have := hrec.2.2.2 i hi
        rw [hstep] at this
        exact this
    | some issued =>
      obtain ⟨hival, hbump⟩ := hspec.1 issued hio
      have hle : issued + 1 ≤ activeNextId (runTxOps enc rest (applyTxOp enc op st).1).1 := by
        rw [← hbump]
        exact hrec.2.2.1
      have hall : ∀ i ∈ (runTxOps enc rest (applyTxOp enc op st).1).2,
          issued < i := by
        intro i hi
        have := (hrec.2.2.2 i hi).1
        rw [hbump] at this
        omega
      refine ⟨?_, ?_, ?_, ?_⟩
      · exact List.sorted_cons.mpr ⟨hall, hrec.1⟩
      · exact List.nodup_cons.mpr ⟨fun hmem => lt_irrefl issued (hall issued hmem), hrec.2.1⟩
      · omega
      · intro i hi
        rcases List.mem_cons.mp hi with rfl | hmem
        · exact ⟨le_of_eq hival.symm, by omega⟩
        · have h1 := (hrec.2.2.2 i hmem).1
          have h2 := (hrec.2.2.2 i hmem).2
          rw [hbump] at h1
          exact ⟨by omega, h2⟩

/-! ## legacyLocalStorageMigration.ts

localStorage is a list of key/value entries.  A stored value is `empty`
(absent key or empty string, falsy for getItem), `junk` (non-empty text
that safeJsonParse maps to null), or a parsed JSON value.  The CSV backup
preparation block (lines 569-580) only appends to the pending-download
queue and never touches the database, so it is outside the modelled
state; `backupsPrepared` is likewise omitted from the result.  The
DEFAULT_* constants and encryptJsonWithPassphrase come from modules
outside src and are fields of `MigEnv`. -/

inductive StoredVal where
  | empty
  | junk
  | val (j : Json)

abbrev MigStorage := List (String × StoredVal)

def storLookup (storage : MigStorage) (k : String) : Option StoredVal :=
  (storage.find? (fun e => e.1 = k)).map (·.2)

/-- `!!storage.getItem(key)`: a non-empty raw string, whether or not it
parses. -/
def rawTruthy : StoredVal → Bool
  | .empty => false
  | _ => true

structure LegacyIdx where
  currentProfileId : Option String
  profiles : List ProfileSummary

structure SnapshotDec where
  createdAt : String
  updatedAt : String
  index : ProfilesIndex
  profileData : PData
  uiOpt : Option TraekyUiSettings
  metaOpt : Option TraekyDbMeta

structure ScanResult where
  dbSnapshot : Option SnapshotDec
  profilesIndex : Option LegacyIdx
  payloadsByKey : List (String × EncryptedPayload)
  dataMaps : List (List (String × EncryptedPayload))

/-- looksLikeTraekyDb: version 1, object index with a profiles array, and
an object profileData. -/
def looksLikeTraekyDb (v : Json) : Bool :=
  jsObjStrict v &&
  (match getField v "version" with | some (.num 1) => true | _ => false) &&
  jsObjStrict ((getField v "index").getD .null) &&
  jsObjStrict ((getField v "profileData").getD .null) &&
  (match getField ((getField v "index").getD .null) "profiles" with
   | some (.arr _) => true
   | _ => false)

/-- A raw profile entry of a snapshot index (the source pushes the raw
cast objects; string fields are extracted, anything else becomes ""). -/
def decodeProfileRaw (p : Json) : ProfileSummary :=
  { id := (asStr (getField p "id")).getD ""
    name := (asStr (getField p "name")).getD ""
    createdAt := (asStr (getField p "createdAt")).getD ""
    updatedAt := (asStr (getField p "updatedAt")).getD "" }

/-- The typed content of a value that passes looksLikeTraekyDb.  `ui` and
`meta` are taken only when truthy, mirroring `if (snapshot.ui)` /
`if (snapshot.meta)`. -/
def decodeSnapshot (j : Json) : SnapshotDec :=
  let ix := (getField j "index").getD .null
  { createdAt := (asStr (getField j "createdAt")).getD ""
    updatedAt := (asStr (getField j "updatedAt")).getD ""
    index := { currentProfileId := asStr (getField ix "currentProfileId")
               profiles := (match getField ix "profiles" with
                            | some (.arr xs) => xs
                            | _ => []).map decodeProfileRaw }
    profileData := jsonToPData ((getField j "profileData").getD .null)
    uiOpt := match getField j "ui" with
      | some u =>
        if jsTruthy u then
          some { lang := (asStr (getField u "lang")).getD ""
                 mode := (asStr (getField u "mode")).getD "" }
        else none
      | none => none
    metaOpt := match getField j "meta" with
      | some mm =>
        if jsTruthy mm then
          some { revision := match getField mm "revision" with
                 | some (.num n) => n
                 | _ => 0 }
        else none
      | none => none }

/-- JS `(typeof v.x === "string" && v.x) || ... || ""`: the first
candidate that is a non-empty string. -/
def firstTruthyStr : List (Option Json) → String
  | [] => ""
  | c :: rest =>
    match asStr c with
    | some s => if s ≠ "" then s else firstTruthyStr rest
    | none => firstTruthyStr rest

/-- JS `a ?? b ?? c ?? null`. -/
def firstNonNullish : List (Option Json) → Option Json
  | [] => none
  | c :: rest =>
    match c with
    | some .null => firstNonNullish rest
    | none => firstNonNullish rest
    | some v => some v

def normalizeProfileSummary (now : String) (j : Json) : Option ProfileSummary :=
  if jsObjStrict j then
    let id := firstTruthyStr [getField j "id", getField j "profileId", getField j "profile_id"]
    let name := firstTruthyStr [getField j "name", getField j "profileName",
      getField j "profile_name", getField j "label"]
    if id = "" ∨ name = "" then none
    else
      let createdAt := match asStr (getField j "createdAt") with
        | some s => s
        | none =>
          match asStr (getField j "created_at") with
          | some s => s
          | none => now
      let updatedAt := match asStr (getField j "updatedAt") with
        | some s => s
        | none =>
          match asStr (getField j "updated_at") with
          | some s => s
          | none => createdAt
      some { id := id, name := name, createdAt := createdAt, updatedAt := updatedAt }
  else none

def normalizeProfilesIndex (now : String) (j : Json) : Option LegacyIdx :=
  if jsObjStrict j then
    match getField j "profiles" with
    | some (.arr ps) =>
      if ps.isEmpty then none
      else
        let profiles := ps.filterMap (normalizeProfileSummary now)
        if profiles.isEmpty then none
        else
          let currentRaw := firstNonNullish [getField j "currentProfileId",
            getField j "current_profile_id", getField j "activeProfileId"]
          let currentProfileId := match asStr currentRaw with
            | some s => if s ≠ "" then some s else none
            | none => none
          some { currentProfileId := currentProfileId, profiles := profiles }
    | _ => none
  else none

def scanStep (now : String) (acc : ScanResult) (entry : String × StoredVal) : ScanResult :=
  match entry.2 with
  | .empty => acc
  | .junk => acc
  | .val j =>
    if jsTruthy j = false then acc
    else if acc.dbSnapshot.isNone && looksLikeTraekyDb j then
      { acc with dbSnapshot := some (decodeSnapshot j) }
    else
      match normalizeProfilesIndex now j with
      | some cand =>
        match acc.profilesIndex with
        | none => { acc with profilesIndex := some cand }
        | some cur =>
          if cand.profiles.length > cur.profiles.length then
            { acc with profilesIndex := some cand }
          else acc
      | none =>
        if looksLikeEncryptedPayload j then
          { acc with payloadsByKey := acc.payloadsByKey ++ [(entry.1, jsonToPayload j)] }
        else if jsObjStrict j then
          let asMap := (match j with
            | .obj fields => fields
            | _ => ([] : List (String × Json))).filterMap
            (fun (kv : String × Json) => if looksLikeEncryptedPayload kv.2 then
               some (kv.1, jsonToPayload kv.2) else none)
          if asMap.isEmpty then acc
          else { acc with dataMaps := acc.dataMaps ++ [asMap] }
        else acc

def scanLocalStorage (now : String) (storage : MigStorage) : ScanResult :=
  storage.foldl (scanStep now)
    { dbSnapshot := none, profilesIndex := none, payloadsByKey := [], dataMaps := [] }

def chStarts : List Char → List Char → Bool
  | [], _ => true
  | _ :: _, [] => false
  | c :: cs, d :: ds => c = d && chStarts cs ds

def chHasSub (needle : List Char) : List Char → Bool
  | [] => chStarts needle []
  | c :: t => chStarts needle (c :: t) || chHasSub needle t

/-- `key.includes(profileId)`. -/
def strIncludes (s sub : String) : Bool := chHasSub sub.data s.data

/-- `key.endsWith(profileId)`. -/
def strEnds (s suf : String) : Bool := chStarts suf.data.reverse s.data.reverse

/-- pickEncryptedPayloadForProfile: first a direct hit in a profileData
map, then among by-key candidates containing the id the stably-sorted
best (ends-with preferred, then shortest key); only element 0 of the sort
is used, so the fold selects the first minimal candidate, which is what a
stable sort puts there. -/
def pickEncryptedPayloadForProfile (profileId : String)
    (byKey : List (String × EncryptedPayload))
    (maps : List (List (String × EncryptedPayload))) : Option EncryptedPayload :=
  match maps.findSome? (fun m => (m.find? (fun kv => kv.1 = profileId)).map (·.2)) with
  | some p => some p
  | none =>
    let candidates := byKey.filter (fun kv => strIncludes kv.1 profileId)
    match candidates with
    | [] => none
    | c0 :: rest =>
      let rank := fun (k : String) =>
        ((if strEnds k profileId then 0 else 1), k.length)
      some (rest.foldl (fun best c =>
        if (rank c.1).1 < (rank best.1).1 ∨
           ((rank c.1).1 = (rank best.1).1 ∧ (rank c.1).2 < (rank best.1).2)
        then c else best) c0).2

structure MigConfig where
  holding : Int
  upcoming : Int
  baseCurrency : String
  priceFetch : Bool
  coingeckoKey : Option String

structure MigPayload where
  version : Nat
  transactions : List Json
  nextTransactionId : Int
  config : MigConfig

structure MigEnv where
  legacyKey : Option String
  defaultHolding : Int
  defaultUpcoming : Int
  encB : MigPayload → String → EncryptedPayload

def createDefaultConfig (env : MigEnv) : MigConfig :=
  { holding := env.defaultHolding, upcoming := env.defaultUpcoming,
    baseCurrency := "EUR", priceFetch := true, coingeckoKey := none }

inductive MigSource where
  | noSource
  | snapshot
  | indexPayloads
deriving DecidableEq, Repr

structure MigResult where
  migratedProfiles : Nat
  skipped : Bool
  source : MigSource
deriving DecidableEq, Repr

def hasLegacySingleProfileData (storage : MigStorage) : Bool :=
  (match storLookup storage "traeky:transactions" with
   | some v => rawTruthy v | none => false) ||
  (match storLookup storage "traeky:app-config" with
   | some v => rawTruthy v | none => false) ||
  (match storLookup storage "traeky:next-tx-id" with
   | some v => rawTruthy v | none => false)

def readLegacyTransactions (storage : MigStorage) : List Json :=
  match storLookup storage "traeky:transactions" with
  | some (.val (.arr xs)) => xs
  | _ => []

/-- readLegacyNextId: parseInt of the raw text, positive or null.  The
model reads integral JSON numbers; raw texts that parseInt would salvage
but JSON.parse rejects map to null (no claim exercises them). -/
def readLegacyNextId (storage : MigStorage) : Option Int :=
  match storLookup storage "traeky:next-tx-id" with
  | some (.val (.num n)) => if n > 0 then some n else none
  | _ => none

def readLegacyConfig (env : MigEnv) (storage : MigStorage) : Option MigConfig :=
  match storLookup storage "traeky:app-config" with
  | some (.val j) =>
    if jsObjStrict j then
      some { holding := match getField j "holding_period_days" with
               | some (.num n) => n
               | _ => env.defaultHolding
             upcoming := match getField j "upcoming_holding_window_days" with
               | some (.num n) => n
               | _ => env.defaultUpcoming
             baseCurrency := match getField j "base_currency" with
               | some (.str s) => if s = "USD" then "USD" else "EUR"
               | _ => "EUR"
             priceFetch := match getField j "price_fetch_enabled" with
               | some (.bool b) => b
               | _ => true
             coingeckoKey := asStr (getField j "coingecko_api_key") }
    else none
  | _ => none

/-- The profile loop of the db-snapshot merge branch: appends snapshot
profiles whose id is not already present, copying their payload (the
existing-id set is computed once, before the loop). -/
def absorbSnapProfiles (existing : List String) (snapData : PData) :
    List ProfileSummary → List ProfileSummary × PData → List ProfileSummary × PData
  | [], acc => acc
  | p :: rest, (ps, d) =>
    if p.id ∈ existing then absorbSnapProfiles existing snapData rest (ps, d)
    else absorbSnapProfiles existing snapData rest
      (ps ++ [p], pdSet d p.id (pdGet snapData p.id))

/-- The profile loop of the index+payloads branch: for each legacy index
entry with a recoverable payload and an id not already present, stores
the payload and appends the profile.  (The CSV backup block inside the
loop is omitted: it never touches the database.) -/
def absorbIndexProfiles (scan : ScanResult) (existing : List String) :
    List ProfileSummary → List ProfileSummary × PData × Nat →
    List ProfileSummary × PData × Nat
  | [], acc => acc
  | meta :: rest, (ps, d, n) =>
    match pickEncryptedPayloadForProfile meta.id scan.payloadsByKey scan.dataMaps with
    | none => absorbIndexProfiles scan existing rest (ps, d, n)
    | some enc =>
      if meta.id ∈ existing then absorbIndexProfiles scan existing rest (ps, d, n)
      else absorbIndexProfiles scan existing rest
        (ps ++ [meta], pdSet d meta.id (some enc), n + 1)

/-- The single-implicit-profile branch (no snapshot, no usable legacy
profiles index). -/
def migrateSingleLegacy (env : MigEnv) (now : String) (storage : MigStorage)
    (db : TraekyDb) : TraekyDb × MigResult :=
  if db.index.profiles.isEmpty && hasLegacySingleProfileData storage then
    match env.legacyKey with
    | none => (db, { migratedProfiles := 0, skipped := true, source := .noSource })
    | some k =>
      let transactions := readLegacyTransactions storage
      let nextId : Int := match readLegacyNextId storage with
        | some n => n
        | none =>
          if transactions.isEmpty then 1
          else (transactions.foldl (fun acc tx =>
            match getField tx "id" with
            | some (.num m) => if m ≠ 0 ∧ m > acc then m else acc
            | _ => acc) 0) + 1
      let config := (readLegacyConfig env storage).getD (createDefaultConfig env)
      let payload : MigPayload :=
        { version := 2, transactions := transactions, nextTransactionId := nextId,
          config := config }
      let encScoped := { env.encB payload k with scope := some "legacy-appkey" }
      let meta : ProfileSummary :=
        { id := "legacy-profile", name := "Default", createdAt := now, updatedAt := now }
      let db1 := { db with
        profileData := pdSet db.profileData "legacy-profile" (some encScoped)
        index := { currentProfileId := some "legacy-profile", profiles := [meta] } }
      (db1, { migratedProfiles := 1, skipped := false, source := .indexPayloads })
  else (db, { migratedProfiles := 0, skipped := true, source := .noSource })

/-- The index+payloads branch. -/
def migrateFromIndex (scan : ScanResult) (idx : LegacyIdx) (db : TraekyDb) :
    TraekyDb × MigResult :=
  let existingIds := profileIds db
  let r := absorbIndexProfiles scan existingIds idx.profiles
    (db.index.profiles, db.profileData, 0)
  let nextProfiles := r.1
  let data1 := r.2.1
  let migratedCount := r.2.2
  if nextProfiles.isEmpty then
    ({ db with profileData := data1 },
     { migratedProfiles := 0, skipped := true, source := .noSource })
  else
    let curKeep : Bool := match db.index.currentProfileId with
      | some c => c ≠ "" && (pdGet data1 c).isSome
      | none => false
    let cur := if curKeep then db.index.currentProfileId
      else match idx.currentProfileId with
        | some sc =>
          if sc ≠ "" && (pdGet data1 sc).isSome then some sc
          else (match nextProfiles with | [] => none | p :: _ => some p.id)
        | none => match nextProfiles with | [] => none | p :: _ => some p.id
    ({ db with index := { currentProfileId := cur, profiles := nextProfiles }
               profileData := data1 },
     { migratedProfiles := migratedCount, skipped := false, source := .indexPayloads })

/-- The db-snapshot branch (snapshot known to have profiles). -/
def migrateFromSnapshot (snap : SnapshotDec) (db : TraekyDb) : TraekyDb × MigResult :=
  let existingIds := profileIds db
  if db.index.profiles.isEmpty then
    let db1 := { db with
      createdAt := snap.createdAt
      updatedAt := snap.updatedAt
      index := snap.index
      profileData := snap.profileData
      ui := match snap.uiOpt with | some u => u | none => db.ui
      meta := match snap.metaOpt with | some m => m | none => db.meta }
    (db1, { migratedProfiles := snap.index.profiles.length, skipped := false,
            source := .snapshot })
  else
    let r := absorbSnapProfiles existingIds snap.profileData snap.index.profiles
      (db.index.profiles, db.profileData)
    let nextProfiles := r.1
    let data1 := r.2
    let cur := match db.index.currentProfileId with
      | some c =>
        if c ≠ "" ∧ pdGet data1 c = none then
          (match nextProfiles with | [] => none | p :: _ => some p.id)
        else some c
      | none => none
    let migrated := ((dedupFirst (snap.index.profiles.map (·.id))).filter
      (fun id => id ∉ existingIds)).length
    ({ db with index := { currentProfileId := cur, profiles := nextProfiles }
               profileData := data1 },
     { migratedProfiles := migrated, skipped := false, source := .snapshot })

/-- The fallthrough after the db-snapshot test: either the legacy
profiles-index branch or the single-implicit-profile branch. -/
def migrateViaIndex (env : MigEnv) (now : String) (storage : MigStorage)
    (scan : ScanResult) (db : TraekyDb) : TraekyDb × MigResult :=
  match scan.profilesIndex with
  | none => migrateSingleLegacy env now storage db
  | some idx =>
    if idx.profiles.isEmpty then migrateSingleLegacy env now storage db
    else migrateFromIndex scan idx db

/-- migrateLegacyLocalStorageIntoDb (storage assumed available; without
localStorage the function returns the skipped result without touching the
database). -/
def migrateLegacyLocalStorageIntoDb (env : MigEnv) (now : String)
    (storage : MigStorage) (db : TraekyDb) : TraekyDb × MigResult :=
  let scan := scanLocalStorage now storage
  match scan.dbSnapshot with
  | some snap =>
    if snap.index.profiles.isEmpty then migrateViaIndex env now storage scan db
    else migrateFromSnapshot snap db
  | none => migrateViaIndex env now storage scan db

/-! Absorption-loop lemmas: the loops only ever append profiles, and skip
every profile whose id is already present. -/

lemma absorbSnap_sub (ex : List String) (sd : PData) (l : List ProfileSummary)
    (ps : List ProfileSummary) (d : PData) (i : String)
    (hi : i ∈ ps.map (fun p => p.id)) :
    i ∈ (absorbSnapProfiles ex sd l (ps, d)).1.map (fun p => p.id) := by
  induction l generalizing ps d with
  | nil => simpa [absorbSnapProfiles] using hi
  | cons q t ih =>
    by_cases hq : q.id ∈ ex
    · simp only [absorbSnapProfiles, if_pos hq]
      exact ih ps d hi
    · simp only [absorbSnapProfiles, if_neg hq]
      exact ih _ _ (by simp only [List.map_append, List.mem_append]; exact Or.inl hi)

lemma absorbSnap_covers (ex : List String) (sd : PData) (l : List ProfileSummary)
    (ps : List ProfileSummary) (d : PData) :
    ∀ p ∈ l, p.id ∈ ex ∨
      p.id ∈ (absorbSnapProfiles ex sd l (ps, d)).1.map (fun q => q.id) := by
  induction l generalizing ps d with
  | nil => intro p hp; cases hp
  | cons q t ih =>
    intro p hp
    rcases List.mem_cons.mp hp with hpq | hpt
    · subst hpq
      by_cases hq : p.id ∈ ex
      · exact Or.inl hq
      · refine Or.inr ?_
        simp only [absorbSnapProfiles, if_neg hq]
        exact absorbSnap_sub ex sd t _ _ p.id (by simp)
    · by_cases hq : q.id ∈ ex
      · simpa only [absorbSnapProfiles, if_pos hq] using ih ps d p hpt
      · simpa only [absorbSnapProfiles, if_neg hq] using ih _ _ p hpt

lemma absorbSnap_noop (ex : List String) (sd : PData) (l : List ProfileSummary)
    (acc : List ProfileSummary × PData) (h : ∀ p ∈ l, p.id ∈ ex) :
    absorbSnapProfiles ex sd l acc = acc := by
  obtain ⟨ps, d⟩ := acc
  induction l with
  | nil => rfl
  | cons q t ih =>
    have hq : q.id ∈ ex := h q (List.mem_cons_self q t)
    simp only [absorbSnapProfiles, if_pos hq]
    exact ih (fun p hp => h p (List.mem_cons_of_mem q hp))

lemma absorbIdx_sub (scan : ScanResult) (ex : List String) (l : List ProfileSummary)
    (ps : List ProfileSummary) (d : PData) (n : Nat) (i : String)
    (hi : i ∈ ps.map (fun p => p.id)) :
    i ∈ (absorbIndexProfiles scan ex l (ps, d, n)).1.map (fun p => p.id) := by
  induction l generalizing ps d n with
  | nil => simpa [absorbIndexProfiles] using hi
  | cons q t ih =>
    cases hpick : pickEncryptedPayloadForProfile q.id scan.payloadsByKey scan.dataMaps with
    | none =>
      simp only [absorbIndexProfiles, hpick]
      exact ih ps d n hi
    | some enc =>
      by_cases hq : q.id ∈ ex
      · simp only [absorbIndexProfiles, hpick, if_pos hq]
        exact ih ps d n hi
      · simp only [absorbIndexProfiles, hpick, if_neg hq]
        exact ih _ _ _ (by simp only [List.map_append, List.mem_append]; exact Or.inl hi)

lemma absorbIdx_covers (scan : ScanResult) (ex : List String) (l : List ProfileSummary)
    (ps : List ProfileSummary) (d : PData) (n : Nat) :
    ∀ m ∈ l,
      pickEncryptedPayloadForProfile m.id scan.payloadsByKey scan.dataMaps = none ∨
      m.id ∈ ex ∨
      m.id ∈ (absorbIndexProfiles scan ex l (ps, d, n)).1.map (fun q => q.id) := by
  induction l generalizing ps d n with
  | nil => intro m hm; cases hm
  | cons q t ih =>
    intro m hm
    rcases List.mem_cons.mp hm with hmq | hmt
    · subst hmq
      cases hpick : pickEncryptedPayloadForProfile m.id scan.payloadsByKey scan.dataMaps with
      | none => exact Or.inl rfl
      | some enc =>
        by_cases hq : m.id ∈ ex
        · exact Or.inr (Or.inl hq)
        · refine Or.inr (Or.inr ?_)
          simp only [absorbIndexProfiles, hpick, if_neg hq]
          exact absorbIdx_sub scan ex t _ _ _ m.id (by simp)
    · cases hpick : pickEncryptedPayloadForProfile q.id scan.payloadsByKey scan.dataMaps with
      | none =>
        simpa only [absorbIndexProfiles, hpick] using ih ps d n m hmt
      | some enc =>
        by_cases hq : q.id ∈ ex
        · simpa only [absorbIndexProfiles, hpick, if_pos hq] using ih ps d n m hmt
        · simpa only [absorbIndexProfiles, hpick, if_neg hq] using ih _ _ _ m hmt

lemma absorbIdx_noop (scan : ScanResult) (ex : List String) (l : List ProfileSummary)
    (acc : List ProfileSummary × PData × Nat)
    (h : ∀ m ∈ l,
      pickEncryptedPayloadForProfile m.id scan.payloadsByKey scan.dataMaps ≠ none →
      m.id ∈ ex) :
    absorbIndexProfiles scan ex l acc = acc := by
  obtain ⟨ps, d, n⟩ := acc
  induction l with
  | nil => rfl
  | cons q t ih =>
    have ht : ∀ m ∈ t,
        pickEncryptedPayloadForProfile m.id scan.payloadsByKey scan.dataMaps ≠ none →
        m.id ∈ ex := fun m hm => h m (List.mem_cons_of_mem q hm)
    cases hpick : pickEncryptedPayloadForProfile q.id scan.payloadsByKey scan.dataMaps with
    | none =>
      simp only [absorbIndexProfiles, hpick]
      exact ih ht
    | some enc =>
      have hq : q.id ∈ ex := h q (List.mem_cons_self q t) (by rw [hpick]; exact Option.noConfusion)
      simp only [absorbIndexProfiles, hpick, if_pos hq]
      exact ih ht

/-! Branch-level lemmas: after a run, every absorbable profile id is in
the index; and a run over a database that already contains them leaves
profiles and profileData untouched. -/

lemma migrateFromSnapshot_covers (snap : SnapshotDec) (db : TraekyDb) :
    ∀ p ∈ snap.index.profiles, p.id ∈ profileIds (migrateFromSnapshot snap db).1 := by
  intro p hp
  by_cases hdb : db.index.profiles.isEmpty = true
  · have hix : (migrateFromSnapshot snap db).1.index = snap.index := by
      simp only [migrateFromSnapshot, hdb, if_true]
    simp only [profileIds, hix]
    exact List.mem_map_of_mem _ hp
  · have hix : (migrateFromSnapshot snap db).1.index.profiles =
      (absorbSnapProfiles (profileIds db) snap.profileData snap.index.profiles
        (db.index.profiles, db.profileData)).1 := by
      simp only [migrateFromSnapshot, hdb, if_false]
      rfl
    simp only [profileIds, hix]
    rcases absorbSnap_covers (profileIds db) snap.profileData snap.index.profiles
        db.index.profiles db.profileData p hp with hex | hmem
    · exact absorbSnap_sub _ _ _ _ _ _ hex
    · exact hmem

lemma migrateFromSnapshot_stable (snap : SnapshotDec) (db : TraekyDb)
    (hne : db.index.profiles ≠ [])
    (hcov : ∀ p ∈ snap.index.profiles, p.id ∈ profileIds db) :
    (migrateFromSnapshot snap db).1.index.profiles = db.index.profiles ∧
    (migrateFromSnapshot snap db).1.profileData = db.profileData := by
  have hdb : db.index.profiles.isEmpty = false := by
    cases h : db.index.profiles with
    | nil => exact absurd h hne
    | cons q t => rfl
  have hno : absorbSnapProfiles (profileIds db) snap.profileData snap.index.profiles
      (db.index.profiles, db.profileData) = (db.index.profiles, db.profileData) :=
    absorbSnap_noop _ _ _ _ hcov
  constructor
  · simp only [migrateFromSnapshot, hdb, if_false, hno]
    rfl
  · simp only [migrateFromSnapshot, hdb, if_false, hno]
    rfl

lemma migrateFromIndex_branches (scan : ScanResult) (idx : LegacyIdx) (db : TraekyDb) :
    (migrateFromIndex scan idx db).1.index.profiles =
      (if ((absorbIndexProfiles scan (profileIds db) idx.profiles
            (db.index.profiles, db.profileData, 0)).1.isEmpty : Bool)
       then db.index.profiles
       else (absorbIndexProfiles scan (profileIds db) idx.profiles
            (db.index.profiles, db.profileData, 0)).1) ∧
    (migrateFromIndex scan idx db).1.profileData =
      (absorbIndexProfiles scan (profileIds db) idx.profiles
        (db.index.profiles, db.profileData, 0)).2.1 := by
  by_cases hr : (absorbIndexProfiles scan (profileIds db) idx.profiles
      (db.index.profiles, db.profileData, 0)).1.isEmpty = true
  · constructor
    · simp only [migrateFromIndex, hr, if_true]
    · simp only [migrateFromIndex, hr, if_true]
  · constructor
    · simp only [migrateFromIndex, hr, if_false]
      rfl
    · simp only [migrateFromIndex, hr, if_false]
      rfl

lemma migrateFromIndex_covers (scan : ScanResult) (idx : LegacyIdx) (db : TraekyDb)
    (hne : (migrateFromIndex scan idx db).1.index.profiles ≠ []) :
    ∀ m ∈ idx.profiles,
      pickEncryptedPayloadForProfile m.id scan.payloadsByKey scan.dataMaps ≠ none →
      m.id ∈ profileIds (migrateFromIndex scan idx db).1 := by
  intro m hm hpick
  obtain ⟨hfst, _⟩ := migrateFromIndex_branches scan idx db
  by_cases hr : (absorbIndexProfiles scan (profileIds db) idx.profiles
      (db.index.profiles, db.profileData, 0)).1.isEmpty = true
  · -- the skip branch: then db had no profiles and the result is empty,
    -- contradicting hne
    exfalso
    have hnil : (absorbIndexProfiles scan (profileIds db) idx.profiles
        (db.index.profiles, db.profileData, 0)).1 = [] := by
      simpa [List.isEmpty_iff] using hr
    have hdbnil : db.index.profiles = [] := by
      cases hdbp : db.index.profiles with
      | nil => rfl
      | cons q t =>
        have : q.id ∈ (absorbIndexProfiles scan (profileIds db) idx.profiles
            (db.index.profiles, db.profileData, 0)).1.map (fun p => p.id) :=
          absorbIdx_sub _ _ _ _ _ _ _ (by rw [hdbp]; simp)
        rw [hnil] at this
        cases this
    rw [hfst, if_pos hr, hdbnil] at hne
    exact hne rfl
  · rw [profileIds, hfst, if_neg hr]
    rcases absorbIdx_covers scan (profileIds db) idx.profiles
        db.index.profiles db.profileData 0 m hm with h0 | hex | hmem
    · exact absurd h0 hpick
    · exact absorbIdx_sub _ _ _ _ _ _ _ hex
    · exact hmem

lemma migrateFromIndex_stable (scan : ScanResult) (idx : LegacyIdx) (db : TraekyDb)
    (hne : db.index.profiles ≠ [])
    (hcov : ∀ m ∈ idx.profiles,
      pickEncryptedPayloadForProfile m.id scan.payloadsByKey scan.dataMaps ≠ none →
      m.id ∈ profileIds db) :
    (migrateFromIndex scan idx db).1.index.profiles = db.index.profiles ∧
    (migrateFromIndex scan idx db).1.profileData = db.profileData := by
  have hno : absorbIndexProfiles scan (profileIds db) idx.profiles
      (db.index.profiles, db.profileData, 0) = (db.index.profiles, db.profileData, 0) :=
    absorbIdx_noop _ _ _ _ hcov
  have hdb : db.index.profiles.isEmpty = false := by
    cases h : db.index.profiles with
    | nil => exact absurd h hne
    | cons q t => rfl
  obtain ⟨hfst, hsnd⟩ := migrateFromIndex_branches scan idx db
  rw [hno] at hfst hsnd
  constructor
  · rw [hfst, hdb]; rfl
  · rw [hsnd]

lemma migrateSingleLegacy_stable (env : MigEnv) (now : String) (storage : MigStorage)
    (db : TraekyDb) (hne : db.index.profiles ≠ []) :
    (migrateSingleLegacy env now storage db).1 = db := by
  have hdb : db.index.profiles.isEmpty = false := by
    cases h : db.index.profiles with
    | nil => exact absurd h hne
    | cons q t => rfl
  simp only [migrateSingleLegacy, hdb, Bool.false_and, Bool.false_eq_true, if_false]

/-! Scanning the same storage at two different clock readings differs at
most in the createdAt/updatedAt defaults of normalized legacy profiles:
the snapshot, the payloads and the profile ids are identical. -/

def idxRel : Option LegacyIdx → Option LegacyIdx → Prop
  | none, none => True
  | some a, some b =>
    a.currentProfileId = b.currentProfileId ∧
    a.profiles.map (fun p => p.id) = b.profiles.map (fun p => p.id)
  | _, _ => False

def ScanRel (a b : ScanResult) : Prop :=
  a.dbSnapshot = b.dbSnapshot ∧ a.payloadsByKey = b.payloadsByKey ∧
  a.dataMaps = b.dataMaps ∧ idxRel a.profilesIndex b.profilesIndex

lemma normalizeProfileSummary_rel (n1 n2 : String) (j : Json) :
    (normalizeProfileSummary n1 j).map (fun p => p.id) =
    (normalizeProfileSummary n2 j).map (fun p => p.id) := by
  unfold normalizeProfileSummary
  by_cases ho : jsObjStrict j = true
  · by_cases h2 : (firstTruthyStr [getField j "id", getField j "profileId",
        getField j "profile_id"] = "" ∨
      firstTruthyStr [getField j "name", getField j "profileName",
        getField j "profile_name", getField j "label"] = "")
    · simp only [ho, if_true, if_pos h2, Option.map_none']
    · simp only [ho, if_true, if_neg h2, Option.map_some']
  · simp only [ho, Bool.false_eq_true, if_false, Option.map_none']

lemma filterMap_map_congr {α β γ : Type _} (f g : α → Option β) (h : β → γ)
    (l : List α) (hfg : ∀ x ∈ l, (f x).map h = (g x).map h) :
    (l.filterMap f).map h = (l.filterMap g).map h := by
  induction l with
  | nil => rfl
  | cons a t ih =>
    have ha := hfg a (List.mem_cons_self a t)
    have ht : ∀ x ∈ t, (f x).map h = (g x).map h :=
      fun x hx => hfg x (List.mem_cons_of_mem a hx)
    cases hfa : f a with
    | none =>
      cases hga : g a with
      | none => simp only [List.filterMap_cons, hfa, hga]; exact ih ht
      | some b => rw [hfa, hga] at ha; cases ha
    | some b =>
      cases hga : g a with
      | none => rw [hfa, hga] at ha; cases ha
      | some b2 =>
        rw [hfa, hga] at ha
        have hb : h b = h b2 := by simpa using ha
        simp only [List.filterMap_cons, hfa, hga, List.map_cons, hb, ih ht]

lemma normalizeProfilesIndex_rel (n1 n2 : String) (j : Json) :
    idxRel (normalizeProfilesIndex n1 j) (normalizeProfilesIndex n2 j) := by
  unfold normalizeProfilesIndex
  by_cases ho : jsObjStrict j = true
  · cases hpf : getField j "profiles" with
    | none => simp only [ho, if_true, hpf]; trivial
    | some pj =>
      cases pj with
      | null => simp only [ho, if_true, hpf]; trivial
      | bool b => simp only [ho, if_true, hpf]; trivial
      | num m => simp only [ho, if_true, hpf]; trivial
      | str s => simp only [ho, if_true, hpf]; trivial
      | obj fs => simp only [ho, if_true, hpf]; trivial
      | arr ps =>
        by_cases hpe : ps.isEmpty = true
        · simp only [ho, if_true, hpf, hpe]; trivial
        · have hids := filterMap_map_congr (normalizeProfileSummary n1)
            (normalizeProfileSummary n2) (fun p => p.id) ps
            (fun x _ => normalizeProfileSummary_rel n1 n2 x)
          by_cases hfe : (ps.filterMap (normalizeProfileSummary n1)).isEmpty = true
          · have hfe2 : (ps.filterMap (normalizeProfileSummary n2)).isEmpty = true := by
              rw [List.isEmpty_iff] at hfe ⊢
              rw [hfe] at hids
              have h0 : List.filterMap (normalizeProfileSummary n2) ps = [] := by
                simpa using hids.symm
              exact h0
            simp only [ho, if_true, hpf, hpe, Bool.false_eq_true, if_false,
              hfe, hfe2]
            trivial
          · have hfe2 : ¬((ps.filterMap (normalizeProfileSummary n2)).isEmpty = true) := by
              intro hcon
              apply hfe
              rw [List.isEmpty_iff] at hcon ⊢
              rw [hcon] at hids
              simp only [List.map_nil] at hids
              rw [List.map_eq_nil_iff] at hids
              exact hids
            simp only [ho, if_true, hpf, hpe, Bool.false_eq_true, if_false,
              hfe, hfe2]
            exact ⟨rfl, hids⟩
  · simp only [ho, Bool.false_eq_true, if_false]; trivial

lemma scanStep_rel (n1 n2 : String) (a b : ScanResult) (e : String × StoredVal)
    (h : ScanRel a b) : ScanRel (scanStep n1 a e) (scanStep n2 b e) := by
  obtain ⟨h1, h2, h3, h4⟩ := h
  obtain ⟨k, v⟩ := e
  cases v with
  | empty => exact ⟨h1, h2, h3, h4⟩
  | junk => exact ⟨h1, h2, h3, h4⟩
  | val j =>
    simp only [scanStep]
    by_cases ht : jsTruthy j = false
    · simp only [if_pos ht]
      exact ⟨h1, h2, h3, h4⟩
    · simp only [if_neg ht]
      have hsn : b.dbSnapshot.isNone = a.dbSnapshot.isNone := by rw [h1]
      by_cases hlk : (a.dbSnapshot.isNone && looksLikeTraekyDb j) = true
      · have hlk2 : (b.dbSnapshot.isNone && looksLikeTraekyDb j) = true := by
          rw [hsn]; exact hlk
        simp only [if_pos hlk, if_pos hlk2]
        exact ⟨rfl, h2, h3, h4⟩
      · have hlk2 : ¬((b.dbSnapshot.isNone && looksLikeTraekyDb j) = true) := by
          rw [hsn]; exact hlk
        simp only [if_neg hlk, if_neg hlk2]
        have hni := normalizeProfilesIndex_rel n1 n2 j
        cases hn1 : normalizeProfilesIndex n1 j with
        | none =>
          cases hn2 : normalizeProfilesIndex n2 j with
          | some c2 => rw [hn1, hn2] at hni; exact hni.elim
          | none =>
            by_cases hep : looksLikeEncryptedPayload j = true
            · simp only [if_pos hep]
              exact ⟨h1, by rw [h2], h3, h4⟩
            · simp only [if_neg hep]
              by_cases hob : jsObjStrict j = true
              · simp only [if_pos hob]
                by_cases hm : ((match j with
                    | .obj fields => fields
                    | _ => ([] : List (String × Json))).filterMap
                    (fun (kv : String × Json) => if looksLikeEncryptedPayload kv.2 then
                      some (kv.1, jsonToPayload kv.2) else none)).isEmpty = true
                · simp only [if_pos hm]
                  exact ⟨h1, h2, h3, h4⟩
                · simp only [if_neg hm]
                  exact ⟨h1, h2, by rw [h3], h4⟩
              · simp only [if_neg hob]
                exact ⟨h1, h2, h3, h4⟩
        | some c1 =>
          cases hn2 : normalizeProfilesIndex n2 j with
          | none => rw [hn1, hn2] at hni; exact hni.elim
          | some c2 =>
            rw [hn1, hn2] at hni
            obtain ⟨hc, hids⟩ := hni
            cases hp1 : a.profilesIndex with
            | none =>
              cases hp2 : b.profilesIndex with
              | none => exact ⟨h1, h2, h3, ⟨hc, hids⟩⟩
              | some u2 => rw [hp1, hp2] at h4; exact h4.elim
            | some u1 =>
              cases hp2 : b.profilesIndex with
              | none => rw [hp1, hp2] at h4; exact h4.elim
              | some u2 =>
                rw [hp1, hp2] at h4
                obtain ⟨huc, huids⟩ := h4
                have hlen : c1.profiles.length = c2.profiles.length := by
                  have := congrArg List.length hids
                  simpa using this
                have hulen : u1.profiles.length = u2.profiles.length := by
                  have := congrArg List.length huids
                  simpa using this
                by_cases hgt : c1.profiles.length > u1.profiles.length
                · have hgt2 : c2.profiles.length > u2.profiles.length := by
                    rw [← hlen, ← hulen]; exact hgt
                  simp only [if_pos hgt, if_pos hgt2]
                  exact ⟨h1, h2, h3, ⟨hc, hids⟩⟩
                · have hgt2 : ¬(c2.profiles.length > u2.profiles.length) := by
                    rw [← hlen, ← hulen]; exact hgt
                  simp only [if_neg hgt, if_neg hgt2]
                  exact ⟨h1, h2, h3, by rw [hp1, hp2]; exact ⟨huc, huids⟩⟩

lemma foldl_scanStep_rel (n1 n2 : String) (l : MigStorage) :
    ∀ a b : ScanResult, ScanRel a b →
      ScanRel (l.foldl (scanStep n1) a) (l.foldl (scanStep n2) b) := by
  induction l with
  | nil => intro a b h; exact h
  | cons e t ih => intro a b h; exact ih _ _ (scanStep_rel n1 n2 a b e h)

lemma scanLocalStorage_rel (n1 n2 : String) (storage : MigStorage) :
    ScanRel (scanLocalStorage n1 storage) (scanLocalStorage n2 storage) :=
  foldl_scanStep_rel n1 n2 storage _ _ ⟨rfl, rfl, rfl, trivial⟩

lemma migrate_snap_char (env : MigEnv) (now : String) (storage : MigStorage)
    (db : TraekyDb) (snap : SnapshotDec)
    (h : (scanLocalStorage now storage).dbSnapshot = some snap)
    (hne : snap.index.profiles.isEmpty = false) :
    migrateLegacyLocalStorageIntoDb env now storage db = migrateFromSnapshot snap db := by
  simp only [migrateLegacyLocalStorageIntoDb, h, hne, Bool.false_eq_true, if_false]

lemma migrate_via_char_none (env : MigEnv) (now : String) (storage : MigStorage)
    (db : TraekyDb) (h : (scanLocalStorage now storage).dbSnapshot = none) :
    migrateLegacyLocalStorageIntoDb env now storage db =
      migrateViaIndex env now storage (scanLocalStorage now storage) db := by
  simp only [migrateLegacyLocalStorageIntoDb, h]

lemma migrate_via_char_empty (env : MigEnv) (now : String) (storage : MigStorage)
    (db : TraekyDb) (snap : SnapshotDec)
    (h : (scanLocalStorage now storage).dbSnapshot = some snap)
    (he : snap.index.profiles.isEmpty = true) :
    migrateLegacyLocalStorageIntoDb env now storage db =
      migrateViaIndex env now storage (scanLocalStorage now storage) db := by
  simp only [migrateLegacyLocalStorageIntoDb, h, he, if_true]

lemma migrateViaIndex_stable (env : MigEnv) (now1 now2 : String) (storage : MigStorage)
    (s1 s2 : ScanResult) (db0 : TraekyDb)
    (hpk : s1.payloadsByKey = s2.payloadsByKey)
    (hdm : s1.dataMaps = s2.dataMaps)
    (hidx : idxRel s1.profilesIndex s2.profilesIndex)
    (hne : (migrateViaIndex env now1 storage s1 db0).1.index.profiles ≠ []) :
    (migrateViaIndex env now2 storage s2
        (migrateViaIndex env now1 storage s1 db0).1).1.index.profiles =
      (migrateViaIndex env now1 storage s1 db0).1.index.profiles ∧
    (migrateViaIndex env now2 storage s2
        (migrateViaIndex env now1 storage s1 db0).1).1.profileData =
      (migrateViaIndex env now1 storage s1 db0).1.profileData := by
  cases hp1 : s1.profilesIndex with
  | none =>
    cases hp2 : s2.profilesIndex with
    | some c => rw [hp1, hp2] at hidx; exact hidx.elim
    | none =>
      have h1 : migrateViaIndex env now1 storage s1 db0 =
          migrateSingleLegacy env now1 storage db0 := by
        simp only [migrateViaIndex, hp1]
      rw [h1] at hne ⊢
      have h2 : migrateViaIndex env now2 storage s2
          (migrateSingleLegacy env now1 storage db0).1 =
          migrateSingleLegacy env now2 storage
            (migrateSingleLegacy env now1 storage db0).1 := by
        simp only [migrateViaIndex, hp2]
      rw [h2, migrateSingleLegacy_stable env now2 storage _ hne]
      exact ⟨rfl, rfl⟩
  | some idx1 =>
    cases hp2 : s2.profilesIndex with
    | none => rw [hp1, hp2] at hidx; exact hidx.elim
    | some idx2 =>
      rw [hp1, hp2] at hidx
      obtain ⟨hc, hids⟩ := hidx
      by_cases he1 : idx1.profiles.isEmpty = true
      · have he2 : idx2.profiles.isEmpty = true := by
          rw [List.isEmpty_iff] at he1 ⊢
          rw [he1] at hids
          have h0 : idx2.profiles = [] := by simpa using hids.symm
          exact h0
        have h1 : migrateViaIndex env now1 storage s1 db0 =
            migrateSingleLegacy env now1 storage db0 := by
          simp only [migrateViaIndex, hp1, he1, if_true]
        rw [h1] at hne ⊢
        have h2 : migrateViaIndex env now2 storage s2
            (migrateSingleLegacy env now1 storage db0).1 =
            migrateSingleLegacy env now2 storage
              (migrateSingleLegacy env now1 storage db0).1 := by
          simp only [migrateViaIndex, hp2, he2, if_true]
        rw [h2, migrateSingleLegacy_stable env now2 storage _ hne]
        exact ⟨rfl, rfl⟩
      · have he2 : ¬(idx2.profiles.isEmpty = true) := by
          intro hcon
          apply he1
          rw [List.isEmpty_iff] at hcon ⊢
          rw [hcon] at hids
          have h0 : idx1.profiles = [] := by simpa using hids
          exact h0
        have h1 : migrateViaIndex env now1 storage s1 db0 =
            migrateFromIndex s1 idx1 db0 := by
          simp only [migrateViaIndex, hp1]
          rw [if_neg he1]
        rw [h1] at hne ⊢
        have h2 : migrateViaIndex env now2 storage s2
            (migrateFromIndex s1 idx1 db0).1 =
            migrateFromIndex s2 idx2 (migrateFromIndex s1 idx1 db0).1 := by
          simp only [migrateViaIndex, hp2]
          rw [if_neg he2]
        rw [h2]
        have hcov1 := migrateFromIndex_covers s1 idx1 db0 hne
        have hcov2 : ∀ m ∈ idx2.profiles,
            pickEncryptedPayloadForProfile m.id s2.payloadsByKey s2.dataMaps ≠ none →
            m.id ∈ profileIds (migrateFromIndex s1 idx1 db0).1 := by
          intro m2 hm2 hpick
          have hmem : m2.id ∈ idx2.profiles.map (fun p => p.id) :=
            List.mem_map_of_mem _ hm2
          rw [← hids] at hmem
          obtain ⟨m1, hm1, hid⟩ := List.mem_map.mp hmem
          have hpick1 : pickEncryptedPayloadForProfile m1.id s1.payloadsByKey
              s1.dataMaps ≠ none := by
            rw [hid, hpk, hdm]; exact hpick
          have hres := hcov1 m1 hm1 hpick1
          rw [← hid]
          exact hres
        exact migrateFromIndex_stable s2 idx2 _ hne hcov2

/-- C8: running the legacy migrator a second time on the same storage,
after a first run has left the profile index non-empty, keeps the profile
list and every profileData entry unchanged (the second run may still
rewrite index.currentProfileId: the repair clauses re-point a dangling
current-profile pointer left behind by the first run). -/
theorem migrate_second_run_stable (env : MigEnv) (now1 now2 : String)
    (storage : MigStorage) (db0 : TraekyDb)
    (hne : (migrateLegacyLocalStorageIntoDb env now1 storage db0).1.index.profiles ≠ []) :
    (migrateLegacyLocalStorageIntoDb env now2 storage
        (migrateLegacyLocalStorageIntoDb env now1 storage db0).1).1.index.profiles =
      (migrateLegacyLocalStorageIntoDb env now1 storage db0).1.index.profiles ∧
    (migrateLegacyLocalStorageIntoDb env now2 storage
        (migrateLegacyLocalStorageIntoDb env now1 storage db0).1).1.profileData =
      (migrateLegacyLocalStorageIntoDb env now1 storage db0).1.profileData := by
  obtain ⟨hds, hpk, hdm, hidx⟩ := scanLocalStorage_rel now1 now2 storage
  cases hds1 : (scanLocalStorage now1 storage).dbSnapshot with
  | some snap =>
    have hds2 : (scanLocalStorage now2 storage).dbSnapshot = some snap := by
      rw [← hds]; exact hds1
    by_cases hse : snap.index.profiles.isEmpty = true
    · rw [migrate_via_char_empty env now1 storage db0 snap hds1 hse] at hne ⊢
      rw [migrate_via_char_empty env now2 storage _ snap hds2 hse]
      exact migrateViaIndex_stable env now1 now2 storage _ _ db0 hpk hdm hidx hne
    · have hse' : snap.index.profiles.isEmpty = false := by
        cases hval : snap.index.profiles.isEmpty
        · rfl
        · exact absurd hval hse
      rw [migrate_snap_char env now1 storage db0 snap hds1 hse'] at hne ⊢
      rw [migrate_snap_char env now2 storage _ snap hds2 hse']
      exact migrateFromSnapshot_stable snap _ hne (migrateFromSnapshot_covers snap db0)
  | none =>
    have hds2 : (scanLocalStorage now2 storage).dbSnapshot = none := by
      rw [← hds]; exact hds1
    rw [migrate_via_char_none env now1 storage db0 hds1] at hne ⊢
    rw [migrate_via_char_none env now2 storage _ hds2]
    exact migrateViaIndex_stable env now1 now2 storage _ _ db0 hpk hdm hidx hne

def cexMigEnv : MigEnv :=
  { legacyKey := none, defaultHolding := 30, defaultUpcoming := 7,
    encB := fun _ _ =>
      { version := 1, algorithm := "AES-GCM", salt := "", iv := "",
        ciphertext := "", scope := none } }

def cexMigProfileJ : Json :=
  .obj [("id", .str "p1"), ("name", .str "Main"),
        ("createdAt", .str "2024-01-01T00:00:00.000Z"),
        ("updatedAt", .str "2024-01-01T00:00:00.000Z")]

/-- A localStorage db snapshot whose index points at a profile id with no
profileData entry (a dangling currentProfileId). -/
def cexMigSnapJ : Json :=
  .obj [("version", .num 1),
        ("index", .obj [("profiles", .arr [cexMigProfileJ]),
                        ("currentProfileId", .str "ghost")]),
        ("profileData", .obj [])]

def cexMigStorage : MigStorage := [("traeky:db", .val cexMigSnapJ)]

def cexMigDb0 : TraekyDb := createEmptyDb "2024-01-02T00:00:00.000Z" "en"

def cexMigDb1 : TraekyDb :=
  (migrateLegacyLocalStorageIntoDb cexMigEnv "2024-01-03T00:00:00.000Z"
    cexMigStorage cexMigDb0).1

/-- C8 counterexample: the first migrator run replaces the empty database
with the snapshot wholesale, keeping its dangling currentProfileId
"ghost"; the second run, on the same storage, re-points
currentProfileId to the first profile "p1", so it does change the
database even though the first run left the profile index non-empty. -/
theorem migrate_second_run_changes_db :
    cexMigDb1.index.profiles ≠ [] ∧
    cexMigDb1.index.currentProfileId = some "ghost" ∧
    (migrateLegacyLocalStorageIntoDb cexMigEnv "2024-01-04T00:00:00.000Z"
        cexMigStorage cexMigDb1).1.index.currentProfileId = some "p1" ∧
    (migrateLegacyLocalStorageIntoDb cexMigEnv "2024-01-04T00:00:00.000Z"
        cexMigStorage cexMigDb1).1 ≠ cexMigDb1 := by
  decide

theorem migrate_second_run_stable_witness :
    (migrateLegacyLocalStorageIntoDb cexMigEnv "2024-01-03T00:00:00.000Z"
        cexMigStorage cexMigDb0).1.index.profiles ≠ [] ∧
    ((migrateLegacyLocalStorageIntoDb cexMigEnv "2024-01-04T00:00:00.000Z" cexMigStorage
        (migrateLegacyLocalStorageIntoDb cexMigEnv "2024-01-03T00:00:00.000Z"
          cexMigStorage cexMigDb0).1).1.index.profiles =
      (migrateLegacyLocalStorageIntoDb cexMigEnv "2024-01-03T00:00:00.000Z"
        cexMigStorage cexMigDb0).1.index.profiles ∧
     (migrateLegacyLocalStorageIntoDb cexMigEnv "2024-01-04T00:00:00.000Z" cexMigStorage
        (migrateLegacyLocalStorageIntoDb cexMigEnv "2024-01-03T00:00:00.000Z"
          cexMigStorage cexMigDb0).1).1.profileData =
      (migrateLegacyLocalStorageIntoDb cexMigEnv "2024-01-03T00:00:00.000Z"
        cexMigStorage cexMigDb0).1.profileData) :=
  ⟨by decide,
   migrate_second_run_stable cexMigEnv "2024-01-03T00:00:00.000Z"
     "2024-01-04T00:00:00.000Z" cexMigStorage cexMigDb0 (by decide)⟩

end Traeky
